import Mathlib

/-!
Shallow embedding of the NeutralPress cloud control plane (TypeScript,
Cloudflare Worker) and proofs about its scheduling / delivery pipeline.

Sources embedded here:
* `src/utils.ts` — string helpers, `parsePositiveInt`, `canonicalStringify`,
  `evaluateSiteUrl`, `truncate`, `safeJsonParse`, telemetry readers;
* `src/schemas.ts` — `dispatchMessageSchema` (zod);
* `src/db-delivery.ts` — delivery row transitions and `reserveDispatchSlot`;
* `src/db-instance.ts` — `upsertInstance`;
* `src/worker-handlers.ts` — queue consumer retry scheduling
  (`handleQueue`, `scheduleRetryDispatch`, `computeRetryBackoffMs`,
  `computeDelaySeconds`, `sendToDispatchQueue`);
* `src/telemetry.ts` — `parseTelemetry` (projection to the fields used by
  the dispatch decision);
* `src/app.ts` — the `/v1/instances/sync` handler's choice of verification
  key (trust-on-first-use).

JSON values are modelled by the inductive `Json` (numbers as integers:
nothing proved here depends on float formatting).  Stateful database
operations are modelled as explicit state transformers.  Wall-clock inputs
(`Date.now()`, `crypto.randomUUID()`, `randomMinuteOfDay`) are passed as
explicit parameters.
-/

/-- JSON values, as manipulated by the worker.  Objects are association
lists in insertion order (JavaScript objects preserve insertion order and
cannot contain duplicate keys). -/
inductive Json where
  | null : Json
  | bool : Bool → Json
  | num : Int → Json
  | str : String → Json
  | arr : List Json → Json
  | obj : List (String × Json) → Json

/-- JavaScript property access `record[key]` on an object's entry list:
first binding wins (association lists here never carry duplicates, matching
JavaScript objects). -/
def getField : List (String × Json) → String → Option Json
  | [], _ => none
  | (k, v) :: rest, key => if k = key then some v else getField rest key

/-- Embeds `asRecord` (src/utils.ts): non-null, non-array objects expose
their entries, everything else is `null`. -/
def asRecord : Json → Option (List (String × Json))
  | .obj l => some l
  | _ => none

/-- ASCII model of JavaScript `String.prototype.toLowerCase`. -/
def toLowerString (s : String) : String :=
  ⟨s.data.map Char.toLower⟩

/-- Model of JavaScript `String.prototype.trim`: strip whitespace from both
ends. -/
def jsTrim (s : String) : String :=
  ⟨((s.data.dropWhile Char.isWhitespace).reverse.dropWhile Char.isWhitespace).reverse⟩

/-- Model of JavaScript `String.prototype.endsWith`. -/
def strEndsWith (s suffix : String) : Bool :=
  suffix.data.isSuffixOf s.data

/-- Model of JavaScript `String.prototype.startsWith`. -/
def strStartsWith (s pat : String) : Bool :=
  pat.data.isPrefixOf s.data

/-- Embeds `normalizeNullableString` (src/utils.ts): non-strings map to
null, strings are trimmed and empty results map to null. -/
def normalizeNullableString : Option String → Option String
  | none => none
  | some s =>
    let trimmed := jsTrim s
    if trimmed.length > 0 then some trimmed else none

/-- Model of JavaScript `Number.parseInt(s, 10)`: skip leading whitespace,
optional sign, then a maximal run of decimal digits; no digits means `NaN`,
modelled as `none`. -/
def jsParseInt (s : String) : Option Int :=
  let chars := s.toList.dropWhile Char.isWhitespace
  let (neg, rest) :=
    match chars with
    | '-' :: t => (true, t)
    | '+' :: t => (false, t)
    | t => (false, t)
  let digits := rest.takeWhile Char.isDigit
  if digits.isEmpty then none
  else
    let n : Nat := digits.foldl (fun acc c => acc * 10 + (c.toNat - '0'.toNat)) 0
    some (if neg then -(n : Int) else (n : Int))

/-- Embeds `parsePositiveInt` (src/utils.ts): falsy raw values (absent or
empty string) yield the fallback; otherwise `parseInt` results that are not
finite positive numbers yield the fallback. -/
def parsePositiveInt (raw : Option String) (fallback : Int) : Int :=
  match raw with
  | none => fallback
  | some s =>
    if s = "" then fallback
    else
      match jsParseInt s with
      | none => fallback
      | some value => if value > 0 then value else fallback

/-- Embeds `truncate` (src/utils.ts): falsy values (null / empty string)
yield null, short strings pass through, long strings are cut to
`maxLength - 3` code units plus an ellipsis. -/
def truncate (value : Option String) (maxLength : Nat) : Option String :=
  match value with
  | none => none
  | some v =>
    if v = "" then none
    else if v.length ≤ maxLength then some v
    else some ((v.take (maxLength - 3)) ++ "...")

/-- Embeds `toSqlBool` (src/utils.ts). -/
def toSqlBool (value : Bool) : Nat :=
  if value then 1 else 0

/-- Embeds `safeJsonParse` (src/utils.ts).  `JSON.parse` succeeding is
modelled by `some parsed`; the catch branch returns the empty object. -/
def safeJsonParse : Option Json → Json
  | some parsed => parsed
  | none => .obj []

/-- Embeds `readString` (src/utils.ts): non-empty trimmed strings only. -/
def readString : Json → Option String
  | .str s => if (jsTrim s).length > 0 then some (jsTrim s) else none
  | _ => none

/-- Embeds `readBoolean` (src/utils.ts): booleans, the numbers 0/1, and the
case-insensitive strings "true"/"false"/"1"/"0". -/
def readBoolean : Json → Option Bool
  | .bool b => some b
  | .num n => if n = 0 then some false else if n = 1 then some true else none
  | .str s =>
    let normalized := toLowerString (jsTrim s)
    if normalized = "true" ∨ normalized = "1" then some true
    else if normalized = "false" ∨ normalized = "0" then some false
    else none
  | _ => none

/-- `readBoolean` applied through optional chaining (`record?.field` may be
`undefined`, on which `readBoolean` returns null). -/
def readBooleanOpt (v : Option Json) : Option Bool :=
  v.bind readBoolean

/-- The fields of `parseTelemetry` (src/telemetry.ts) that feed the
dispatch decision; the remaining thirty-odd fields are flat projections of
the same shape and are not consumed by any claim. -/
structure TelemetryCore where
  accepted : Bool
  dedupHit : Bool
deriving Repr, DecidableEq

/-- Embeds the `accepted` / `dedupHit` extraction of `parseTelemetry`
(src/telemetry.ts): `protocol → data → root` fallback chains defaulting to
`false`, where `data = asRecord(root?.data) ?? {}` and
`protocol = asRecord(data.protocolVerification)`. -/
def parseTelemetryCore (payload : Json) : TelemetryCore :=
  let root := asRecord payload
  let data := ((root.bind (getField · "data")).bind asRecord).getD []
  let protocol := (getField data "protocolVerification").bind asRecord
  { accepted :=
      (readBooleanOpt (protocol.bind (getField · "accepted")) <|>
        readBooleanOpt (getField data "accepted") <|>
        readBooleanOpt (root.bind (getField · "accepted"))).getD false
    dedupHit :=
      (readBooleanOpt (protocol.bind (getField · "dedupHit")) <|>
        readBooleanOpt (getField data "dedupHit") <|>
        readBooleanOpt (root.bind (getField · "dedupHit"))).getD false }

/-- The comparator of `canonicalStringify` (src/utils.ts) is
`(a, b) => a.localeCompare(b)` — a host (ICU) builtin, modelled as a
parameter like the URL parser in `evaluateSiteUrl`.  `le a b` reads
`a.localeCompare(b) <= 0`.  A consistent comparator (what ECMA-262 asks of
a sort comparator, and what `localeCompare` provides) is total and
transitive in this reading, but it may tie distinct strings: the
default-locale collation compares canonically equivalent strings equal.
`keyRel` lifts the comparator to object entries. -/
def keyRel (le : String → String → Bool) (p q : String × Json) : Prop :=
  le p.1 q.1 = true

instance (le : String → String → Bool) : DecidableRel (keyRel le) := fun p q =>
  inferInstanceAs (Decidable (le p.1 q.1 = true))

/-- Totality of a comparator: for every pair, at least one order holds. -/
def CmpTotal (le : String → String → Bool) : Prop :=
  ∀ a b, le a b = true ∨ le b a = true

/-- Transitivity of a comparator. -/
def CmpTrans (le : String → String → Bool) : Prop :=
  ∀ a b c, le a b = true → le b c = true → le a c = true

mutual

/-- Embeds `sortValue` (src/utils.ts) over the comparator: arrays are
mapped recursively in order; objects are rebuilt with their keys sorted by
the comparator (`Array.prototype.sort` is stable, as is the insertion sort
used here — tied keys keep their relative order) and their values sorted
recursively; scalars pass through. -/
def sortValue (le : String → String → Bool) : Json → Json
  | .null => .null
  | .bool b => .bool b
  | .num n => .num n
  | .str s => .str s
  | .arr l => .arr (sortList le l)
  | .obj l => .obj ((sortEntries le l).insertionSort (keyRel le))

/-- `value.map((item) => sortValue(item))` on an array's items. -/
def sortList (le : String → String → Bool) : List Json → List Json
  | [] => []
  | x :: xs => sortValue le x :: sortList le xs

/-- Recursive sorting of the values of an object's entries. -/
def sortEntries (le : String → String → Bool) :
    List (String × Json) → List (String × Json)
  | [] => []
  | (k, v) :: xs => (k, sortValue le v) :: sortEntries le xs

end

/-- Numeric value of a decimal key. -/
def keyToNat (s : String) : Nat :=
  s.data.foldl (fun acc c => acc * 10 + (c.toNat - '0'.toNat)) 0

/-- An ECMAScript array-index key: the canonical decimal string of an
integer below 2^32 − 1 (no leading zero except "0"). -/
def isArrayIndexKey (s : String) : Bool :=
  match s.data with
  | [] => false
  | c :: rest =>
    (c :: rest).all Char.isDigit &&
      (decide (c ≠ '0') || decide (rest = [])) &&
      decide (keyToNat s < 4294967295)

/-- Ascending numeric order on array-index entries. -/
def idxLe (p q : String × Json) : Prop :=
  keyToNat p.1 ≤ keyToNat q.1

instance : DecidableRel idxLe := fun p q =>
  inferInstanceAs (Decidable (keyToNat p.1 ≤ keyToNat q.1))

/-- JavaScript own-property enumeration order, followed by `JSON.stringify`
and `Object.keys`: array-index keys in ascending numeric order first, then
the remaining keys in insertion order. -/
def jsPropertyOrder (l : List (String × Json)) : List (String × Json) :=
  (l.filter (fun p => isArrayIndexKey p.1)).insertionSort idxLe ++
    l.filter (fun p => ! isArrayIndexKey p.1)

/-- String escaping of `JSON.stringify` restricted to the characters that
need a backslash escape in every serializer. -/
def escapeChar (c : Char) : String :=
  if c = '"' then "\\\""
  else if c = '\\' then "\\\\"
  else String.singleton c

/-- Serialization of a string literal. -/
def renderString (s : String) : String :=
  "\"" ++ String.join (s.toList.map escapeChar) ++ "\""

mutual

/-- `JSON.stringify` on the sorted tree, serializing each object's entries
in list order.  JavaScript enumerates own properties with array-index keys
first in ascending numeric order (`jsPropertyOrder`) and all other keys in
insertion order, so list order is the program's enumeration order exactly
on values without array-index keys (`plainKeys` below); the theorems about
canonical bytes are scoped to that fragment. -/
def render : Json → String
  | .null => "null"
  | .bool b => if b then "true" else "false"
  | .num n => toString n
  | .str s => renderString s
  | .arr l => "[" ++ renderArr l ++ "]"
  | .obj l => "\x7b" ++ renderObj l ++ "\x7d"

/-- Comma-joined array items. -/
def renderArr : List Json → String
  | [] => ""
  | [x] => render x
  | x :: xs => render x ++ "," ++ renderArr xs

/-- Comma-joined `"key":value` pairs. -/
def renderObj : List (String × Json) → String
  | [] => ""
  | [(k, v)] => renderString k ++ ":" ++ render v
  | (k, v) :: xs => renderString k ++ ":" ++ render v ++ "," ++ renderObj xs

end

/-- Embeds `canonicalStringify` (src/utils.ts):
`JSON.stringify(sortValue(value))`, over the comparator. -/
def canonicalStringify (le : String → String → Bool) (value : Json) : String :=
  render (sortValue le value)

mutual

/-- No object anywhere in the value uses an array-index key: on this
fragment the platform's own-property order is the insertion order, so the
entry lists of `Json.obj` are the enumeration order the program
serializes. -/
def plainKeys : Json → Bool
  | .null => true
  | .bool _ => true
  | .num _ => true
  | .str _ => true
  | .arr l => plainKeysList l
  | .obj l => l.all (fun p => ! isArrayIndexKey p.1) && plainKeysEntries l

def plainKeysList : List Json → Bool
  | [] => true
  | x :: xs => plainKeys x && plainKeysList xs

def plainKeysEntries : List (String × Json) → Bool
  | [] => true
  | (_, v) :: xs => plainKeys v && plainKeysEntries xs

end

/-- Decides that an object's keys appear in comparator order. -/
def entriesKeySorted (le : String → String → Bool) : List (String × Json) → Bool
  | [] => true
  | [_] => true
  | p :: q :: rest => le p.1 q.1 && entriesKeySorted le (q :: rest)

mutual

/-- Every object inside the value has its entries sorted by the
comparator. -/
def keysSorted (le : String → String → Bool) : Json → Bool
  | .null => true
  | .bool _ => true
  | .num _ => true
  | .str _ => true
  | .arr l => keysSortedList le l
  | .obj l => entriesKeySorted le l && keysSortedEntries le l

def keysSortedList (le : String → String → Bool) : List Json → Bool
  | [] => true
  | x :: xs => keysSorted le x && keysSortedList le xs

def keysSortedEntries (le : String → String → Bool) : List (String × Json) → Bool
  | [] => true
  | (_, v) :: xs => keysSorted le v && keysSortedEntries le xs

end

mutual

/-- Well-formedness mirrored from JavaScript runtime objects: no object
carries two entries with the same key (JavaScript objects cannot). -/
def wfJson : Json → Bool
  | .null => true
  | .bool _ => true
  | .num _ => true
  | .str _ => true
  | .arr l => wfList l
  | .obj l => decide (l.map Prod.fst).Nodup && wfEntries l

def wfList : List Json → Bool
  | [] => true
  | x :: xs => wfJson x && wfList xs

def wfEntries : List (String × Json) → Bool
  | [] => true
  | (_, v) :: xs => wfJson v && wfEntries xs

end

/-- Two entries tie when the comparator orders their distinct keys both
ways; a tie makes the sorted order depend on the insertion order (the sort
is stable), which is what defeats permutation invariance. -/
def pairUntied (le : String → String → Bool) (p q : String × Json) : Bool :=
  decide (p.1 = q.1) || ! (le p.1 q.1 && le q.1 p.1)

/-- No two entries of the list tie on distinct keys. -/
def entriesUntied (le : String → String → Bool) : List (String × Json) → Bool
  | [] => true
  | p :: rest => rest.all (pairUntied le p) && entriesUntied le rest

mutual

/-- No object anywhere in the value carries two distinct keys the
comparator ties. -/
def untiedKeys (le : String → String → Bool) : Json → Bool
  | .null => true
  | .bool _ => true
  | .num _ => true
  | .str _ => true
  | .arr l => untiedList le l
  | .obj l => entriesUntied le l && untiedEntries le l

def untiedList (le : String → String → Bool) : List Json → Bool
  | [] => true
  | x :: xs => untiedKeys le x && untiedList le xs

def untiedEntries (le : String → String → Bool) : List (String × Json) → Bool
  | [] => true
  | (_, v) :: xs => untiedKeys le v && untiedEntries le xs

end

/-- Lexicographic codepoint order on character lists. -/
def charListLe : List Char → List Char → Bool
  | [], _ => true
  | _ :: _, [] => false
  | a :: as, b :: bs => if a = b then charListLe as bs else decide (a < b)

/-- The codepoint order as a comparator: consistent, and with no ties on
distinct strings. -/
def codepointLe (a b : String) : Bool :=
  charListLe a.data b.data

/-- NFC composition restricted to the code points of the counterexample:
`a` (U+0061) followed by the combining acute U+0301 composes to `á`
(U+00E1). -/
def nfcChars : List Char → List Char
  | [] => []
  | c :: rest =>
    let tail := nfcChars rest
    if c = 'a' then
      match tail with
      | t :: ts => if t = Char.ofNat 769 then Char.ofNat 225 :: ts else c :: tail
      | [] => [c]
    else c :: tail

/-- A comparator with the tie behaviour of the default-locale
`localeCompare` (ECMA-402 / ICU): canonically equivalent strings — here
`á` U+00E1 and `a` followed by U+0301 — compare equal, realised by
comparing NFC normal forms.  Total and transitive, hence a consistent
comparator. -/
def icuLe (a b : String) : Bool :=
  charListLe (nfcChars a.data) (nfcChars b.data)

/-- One key permutation somewhere inside a value: either the entries of one
object are reordered wholesale, or the step happens inside an array item or
inside the value of an object entry. -/
inductive PermStep : Json → Json → Prop where
  | objPerm {l₁ l₂ : List (String × Json)} :
      l₁.Perm l₂ → PermStep (.obj l₁) (.obj l₂)
  | arrCongr {x y : Json} (pre post : List Json) :
      PermStep x y → PermStep (.arr (pre ++ x :: post)) (.arr (pre ++ y :: post))
  | objCongr {x y : Json} (k : String) (pre post : List (String × Json)) :
      PermStep x y →
      PermStep (.obj (pre ++ (k, x) :: post)) (.obj (pre ++ (k, y) :: post))

/-- The observable parts of a WHATWG `URL` object that `evaluateSiteUrl`
reads: `protocol` (scheme with trailing colon), `hostname` (no port) and
`host` (hostname plus optional port). -/
structure UrlParts where
  protocol : String
  hostname : String
  host : String
deriving Repr, DecidableEq

/-- Embeds `evaluateSiteUrl` (src/utils.ts), parameterised by the platform
URL parser (`new URL(raw)`; `none` models the constructor throwing). -/
def evaluateSiteUrl (parseUrl : String → Option UrlParts) (siteUrl : Option String) :
    Option String × Option String :=
  match normalizeNullableString siteUrl with
  | none => (none, some "pending_url_missing")
  | some raw =>
    match parseUrl raw with
    | none => (none, some "pending_url_invalid")
    | some parsed =>
      if parsed.protocol ≠ "http:" ∧ parsed.protocol ≠ "https:" then
        (none, some "pending_url_invalid_protocol")
      else
        let hostname := toLowerString parsed.hostname
        if hostname = "example.com" then
          (none, some "pending_url_default_example")
        else if hostname = "localhost" ∨ hostname = "127.0.0.1" ∨ hostname = "::1" ∨
            strEndsWith hostname ".localhost" ∨ strEndsWith hostname ".local" ∨
            strStartsWith hostname "127." then
          (none, some "pending_url_localhost")
        else
          (some (parsed.protocol ++ "//" ++ parsed.host), none)

/-- Hexadecimal digit, either case. -/
def isHexChar (c : Char) : Bool :=
  c.isDigit || ('a' ≤ c && c ≤ 'f') || ('A' ≤ c && c ≤ 'F')

/-- Splits a character list on a separator character. -/
def splitOnChar (sep : Char) : List Char → List (List Char)
  | [] => [[]]
  | c :: rest =>
    if c = sep then [] :: splitOnChar sep rest
    else
      match splitOnChar sep rest with
      | [] => [[c]]
      | group :: groups => (c :: group) :: groups

/-- Model of zod's `z.string().uuid()` check: 8-4-4-4-12 groups of hex
digits. -/
def isUuidString (s : String) : Bool :=
  match (splitOnChar '-' s.data).map (fun part => (part.length, part.all isHexChar)) with
  | [(8, a), (4, b), (4, c), (4, d), (12, e)] => a && b && c && d && e
  | _ => false

/-- Model of zod's `z.string().url()` check (`new URL` succeeding): an
http(s) scheme followed by a non-empty host. -/
def isUrlString (s : String) : Bool :=
  (strStartsWith s "http://" && s.length > 7) ||
    (strStartsWith s "https://" && s.length > 8)

/-- Reads a property as a JavaScript string or fails, as `z.string()`
does. -/
def zodString (entries : List (String × Json)) (key : String) : Option String :=
  match getField entries key with
  | some (.str s) => some s
  | _ => none

/-- The output type of `dispatchMessageSchema` (src/schemas.ts).  zod's
default object mode strips unknown keys, so the parse result carries
exactly the six declared fields — in particular no `dispatchAttempt`. -/
structure ParsedDispatchMessage where
  deliveryId : String
  instanceId : String
  siteId : String
  siteUrl : String
  scheduledFor : String
  enqueuedAt : String
deriving Repr, DecidableEq

/-- Embeds `dispatchMessageSchema.safeParse` (src/schemas.ts):
`deliveryId`/`instanceId` non-empty strings, `siteId` a UUID, `siteUrl` a
URL, `scheduledFor`/`enqueuedAt` strings; any other key of the payload is
ignored and stripped. -/
def dispatchMessageSchemaParse (body : Json) : Option ParsedDispatchMessage := do
  let entries ← asRecord body
  let deliveryId ← zodString entries "deliveryId"
  if deliveryId.length < 1 then none else
  let instanceId ← zodString entries "instanceId"
  if instanceId.length < 1 then none else
  let siteId ← zodString entries "siteId"
  if ¬ isUuidString siteId then none else
  let siteUrl ← zodString entries "siteUrl"
  if ¬ isUrlString siteUrl then none else
  let scheduledFor ← zodString entries "scheduledFor"
  let enqueuedAt ← zodString entries "enqueuedAt"
  pure { deliveryId, instanceId, siteId, siteUrl, scheduledFor, enqueuedAt }

/-- One row of `dispatch_minute_load` (schema/init.sql): the per-minute
counters. -/
structure MinuteLoad where
  scheduled_count : Nat
  retry_count : Nat
  total_count : Nat
deriving Repr, DecidableEq

/-- The `dispatch_minute_load` table, keyed by the bucket's minute index
(`minute_start` divided into whole minutes). -/
def LoadTable := Nat → Option MinuteLoad

/-- The empty `dispatch_minute_load` table. -/
def emptyLoadTable : LoadTable := fun _ => none

/-- `source ∈ {scheduled, retry}` of a reservation
(`DispatchSource`, src/db-delivery.ts). -/
inductive DispatchSource where
  | scheduled
  | retry
deriving Repr, DecidableEq

/-- Embeds the single upsert of `reserveDispatchSlot` (src/db-delivery.ts)
on one candidate minute: insert `(scheduledInc, retryInc, 1)` when the row
is absent; otherwise add the same deltas only when
`existing.total_count < maxPerMinute`.  Returns the row exactly when the
insert or the conditional update fired (`RETURNING`). -/
def tryMinute (scheduledInc retryInc maxPerMinute : Nat) (table : LoadTable)
    (minute : Nat) : Option MinuteLoad × LoadTable :=
  match table minute with
  | none =>
    let row : MinuteLoad :=
      { scheduled_count := scheduledInc, retry_count := retryInc, total_count := 1 }
    (some row, fun m => if m = minute then some row else table m)
  | some existing =>
    if existing.total_count < maxPerMinute then
      let row : MinuteLoad :=
        { scheduled_count := existing.scheduled_count + scheduledInc
          retry_count := existing.retry_count + retryInc
          total_count := existing.total_count + 1 }
      (some row, fun m => if m = minute then some row else table m)
    else
      (none, table)

/-- A successful reservation: the reserved minute, the offset walked from
the preferred minute, and the post-increment counters. -/
structure ReservedSlot where
  minute : Nat
  offsetMinutes : Nat
  totalCount : Nat
  scheduledCount : Nat
  retryCount : Nat
deriving Repr, DecidableEq

/-- The walk of `reserveDispatchSlot` over `offset = 0 .. lookaheadMinutes`
(src/db-delivery.ts), written with the number of remaining candidate
minutes as fuel (`remaining = lookaheadMinutes + 1 - offset`). -/
def reserveWalk (scheduledInc retryInc maxPerMinute : Nat) :
    Nat → Nat → Nat → LoadTable → Option ReservedSlot × LoadTable
  | 0, _, _, table => (none, table)
  | remaining + 1, minute, offset, table =>
    match tryMinute scheduledInc retryInc maxPerMinute table minute with
    | (some row, table') =>
      (some { minute, offsetMinutes := offset, totalCount := row.total_count,
              scheduledCount := row.scheduled_count, retryCount := row.retry_count },
        table')
    | (none, table') =>
      reserveWalk scheduledInc retryInc maxPerMinute remaining (minute + 1) (offset + 1) table'

/-- Embeds `reserveDispatchSlot` (src/db-delivery.ts).  `preferredAtMs` is
the preferred instant in milliseconds; `floorToMinute` is division by
60000. -/
def reserveDispatchSlot (table : LoadTable) (preferredAtMs : Nat)
    (source : DispatchSource) (maxPerMinute lookaheadMinutes : Nat) :
    Option ReservedSlot × LoadTable :=
  let baseMinute := preferredAtMs / 60000
  let scheduledInc := if source = .scheduled then 1 else 0
  let retryInc := if source = .retry then 1 else 0
  reserveWalk scheduledInc retryInc maxPerMinute (lookaheadMinutes + 1) baseMinute 0 table

/-- The capacity condition of one candidate minute: the insert fires when
the row is absent, the update fires when `total_count < maxPerMinute`. -/
def slotAvailable (maxPerMinute : Nat) (table : LoadTable) (minute : Nat) : Prop :=
  match table minute with
  | none => True
  | some existing => existing.total_count < maxPerMinute

instance (maxPerMinute : Nat) (table : LoadTable) (minute : Nat) :
    Decidable (slotAvailable maxPerMinute table minute) := by
  unfold slotAvailable
  cases table minute with
  | none => exact inferInstanceAs (Decidable True)
  | some existing => exact inferInstanceAs (Decidable (_ < _))

/-- One `reserveDispatchSlot` call as issued by the scheduler or the
consumer: a preferred instant and a source. -/
structure ReserveCall where
  preferredAtMs : Nat
  source : DispatchSource
deriving Repr, DecidableEq

/-- Runs a sequence of `reserveDispatchSlot` calls against a table, all
with the same quota and lookahead. -/
def runReservations (maxPerMinute lookaheadMinutes : Nat) (table : LoadTable) :
    List ReserveCall → LoadTable
  | [] => table
  | call :: rest =>
    runReservations maxPerMinute lookaheadMinutes
      (reserveDispatchSlot table call.preferredAtMs call.source maxPerMinute
        lookaheadMinutes).2 rest

/-- The `dispatch_minute_load` invariant of the spec: every row satisfies
`total_count = scheduled_count + retry_count` and
`total_count ≤ maxPerMinute`. -/
def loadInvariant (maxPerMinute : Nat) (table : LoadTable) : Prop :=
  ∀ minute row, table minute = some row →
    row.total_count = row.scheduled_count + row.retry_count ∧
    row.total_count ≤ maxPerMinute

/-- `QueueResult` (src/types.ts). -/
inductive QueueResult where
  | success
  | retry
  | drop
deriving Repr, DecidableEq

/-- `DispatchMessage` (src/types.ts): the queue wire format, including the
required `dispatchAttempt`. -/
structure DispatchMessage where
  deliveryId : String
  instanceId : String
  siteId : String
  siteUrl : String
  scheduledFor : String
  enqueuedAt : String
  dispatchAttempt : Nat
deriving Repr, DecidableEq

/-- Embeds `computeRetryBackoffMs` (src/worker-handlers.ts):
`min(30 * 2^(max(1, n) - 1), 15 * 60)` seconds, in milliseconds. -/
def computeRetryBackoffMs (currentAttemptNo : Nat) : Nat :=
  let cappedAttempt := max 1 currentAttemptNo
  let backoffSeconds := min (30 * 2 ^ (cappedAttempt - 1)) (15 * 60)
  backoffSeconds * 1000

/-- Embeds `computeDelaySeconds` (src/worker-handlers.ts):
`max(0, ceil((target - now) / 1000))`, on millisecond instants (truncated
subtraction on `Nat` realises the `max(0, _)`). -/
def computeDelaySeconds (targetMs nowMs : Nat) : Nat :=
  (targetMs - nowMs + 999) / 1000

/-- The externally observable effects of the consumer on one inbound
message (src/worker-handlers.ts): acknowledge it, invoke the queue's native
`retry()`, re-enqueue a fresh message with a delay
(`sendToDispatchQueue`), or mark the delivery dead with an error code. -/
inductive ConsumerAction where
  | ack
  | nativeRetry
  | enqueue (message : DispatchMessage) (delaySeconds : Nat)
  | markDead (deliveryId : String) (errorCode : String)
deriving Repr, DecidableEq

/-- Embeds the post-dispatch half of `handleQueue` together with
`scheduleRetryDispatch` and `sendToDispatchQueue` (src/worker-handlers.ts):
given the `dispatch` result and the message's attempt number, emit the
actions taken on the message and the updated `dispatch_minute_load` table.
`sendOk` models the `DISPATCH_QUEUE.send` call not throwing. -/
def consumerStep (maxAttempts maxPerMinute lookaheadMinutes : Nat)
    (table : LoadTable) (nowMs : Nat) (nowIso : String) (message : DispatchMessage)
    (attemptNo : Nat) (result : QueueResult) (sendOk : Bool) :
    List ConsumerAction × LoadTable :=
  match result with
  | .success => ([.ack], table)
  | .drop => ([.ack], table)
  | .retry =>
    if attemptNo ≥ maxAttempts then
      ([.markDead message.deliveryId "MAX_ATTEMPTS_EXCEEDED", .ack], table)
    else
      let preferredAtMs := nowMs + computeRetryBackoffMs attemptNo
      match reserveDispatchSlot table preferredAtMs .retry maxPerMinute lookaheadMinutes with
      | (none, table') =>
        ([.markDead message.deliveryId "RETRY_SCHEDULE_FAILED", .ack], table')
      | (some slot, table') =>
        if sendOk then
          let retryMessage : DispatchMessage :=
            { message with dispatchAttempt := attemptNo + 1, enqueuedAt := nowIso }
          ([.enqueue retryMessage (computeDelaySeconds (slot.minute * 60000) nowMs), .ack],
            table')
        else
          ([.markDead message.deliveryId "RETRY_SCHEDULE_FAILED", .ack], table')

/-- Delivery statuses (schema/init.sql CHECK constraint). -/
inductive DeliveryStatus where
  | queued
  | delivered
  | failed
  | dead
deriving Repr, DecidableEq

/-- One row of `deliveries` (schema/init.sql), restricted to the columns
the delivery state machine writes. -/
structure DeliveryRow where
  status : DeliveryStatus
  attempt_count : Nat
  response_status : Option Int
  accepted : Option Nat
  dedup_hit : Option Nat
  last_error_code : Option String
  last_error_message : Option String
  completed_at : Option String
deriving Repr, DecidableEq

/-- Embeds `createDelivery` (src/db-delivery.ts): a fresh `'queued'` row
with `attempt_count = 0` and every nullable column null. -/
def createDelivery : DeliveryRow :=
  { status := .queued, attempt_count := 0, response_status := none,
    accepted := none, dedup_hit := none, last_error_code := none,
    last_error_message := none, completed_at := none }

/-- Embeds `markDeliveryDelivered` (src/db-delivery.ts): sets status,
counters, `accepted`/`dedup_hit` as 0/1, and `completed_at = now`. -/
def markDeliveryDelivered (row : DeliveryRow) (attemptCount : Nat)
    (responseStatus : Option Int) (accepted dedupHit : Bool) (now : String) :
    DeliveryRow :=
  { row with
    status := .delivered
    attempt_count := attemptCount
    response_status := responseStatus
    accepted := some (toSqlBool accepted)
    dedup_hit := some (toSqlBool dedupHit)
    completed_at := some now }

/-- Embeds `markDeliveryFailed` (src/db-delivery.ts): sets status, counters
and error columns; `completed_at` is not in the UPDATE's SET list. -/
def markDeliveryFailed (row : DeliveryRow) (attemptCount : Nat)
    (responseStatus : Option Int) (accepted dedupHit : Bool)
    (errorCode errorMessage : String) : DeliveryRow :=
  { row with
    status := .failed
    attempt_count := attemptCount
    response_status := responseStatus
    accepted := some (toSqlBool accepted)
    dedup_hit := some (toSqlBool dedupHit)
    last_error_code := some errorCode
    last_error_message := truncate (some errorMessage) 500 }

/-- Embeds `markDeliveryDead` (src/db-delivery.ts): sets status, error
columns and `completed_at = now`. -/
def markDeliveryDead (row : DeliveryRow) (errorCode errorMessage : String)
    (now : String) : DeliveryRow :=
  { row with
    status := .dead
    last_error_code := some errorCode
    last_error_message := truncate (some errorMessage) 500
    completed_at := some now }

/-- One delivery state-machine operation, as the scheduler and the queue
consumer issue them. -/
inductive DeliveryOp where
  | delivered (attemptCount : Nat) (responseStatus : Option Int)
      (accepted dedupHit : Bool) (now : String)
  | failed (attemptCount : Nat) (responseStatus : Option Int)
      (accepted dedupHit : Bool) (errorCode errorMessage : String)
  | dead (errorCode errorMessage : String) (now : String)

/-- Applies one operation to a delivery row. -/
def applyDeliveryOp (row : DeliveryRow) : DeliveryOp → DeliveryRow
  | .delivered attemptCount responseStatus accepted dedupHit now =>
    markDeliveryDelivered row attemptCount responseStatus accepted dedupHit now
  | .failed attemptCount responseStatus accepted dedupHit errorCode errorMessage =>
    markDeliveryFailed row attemptCount responseStatus accepted dedupHit errorCode
      errorMessage
  | .dead errorCode errorMessage now =>
    markDeliveryDead row errorCode errorMessage now

/-- The call-site constraint on delivery operations: `markDeliveryDelivered`
is invoked only under the `response.ok && accepted` guard of
`dispatchToInstance` (src/worker-handlers.ts), so its `accepted` argument is
always `true`; the other operations are unconstrained. -/
def invokedByPipeline : DeliveryOp → Prop
  | .delivered _ _ accepted _ _ => accepted = true
  | .failed _ _ _ _ _ _ => True
  | .dead _ _ _ => True

/-- Runs a sequence of delivery operations from a freshly created row. -/
def runDeliveryOps (row : DeliveryRow) : List DeliveryOp → DeliveryRow
  | [] => row
  | op :: rest => runDeliveryOps (applyDeliveryOp row op) rest

/-- The spec's delivery invariant. -/
def deliveryInvariant (row : DeliveryRow) : Prop :=
  (row.status = .delivered → row.completed_at ≠ none ∧ row.accepted = some 1) ∧
  (row.status = .dead → row.completed_at ≠ none)

/-- `response.ok` of the Fetch API: status in the inclusive range
200–299. -/
def responseOk (status : Nat) : Bool :=
  200 ≤ status && status ≤ 299

/-- Embeds the response-classification tail of `dispatchToInstance`
(src/worker-handlers.ts): on `response.ok && accepted` the delivery is
delivered and the result is `success`; otherwise the delivery is failed
with `UNACCEPTED_RESPONSE` and the result is `retry`. -/
def dispatchResponseOutcome (row : DeliveryRow) (attemptNo httpStatus : Nat)
    (telemetry : TelemetryCore) (now : String) : QueueResult × DeliveryRow :=
  if responseOk httpStatus && telemetry.accepted then
    (.success,
      markDeliveryDelivered row attemptNo (some httpStatus) telemetry.accepted
        telemetry.dedupHit now)
  else
    (.retry,
      markDeliveryFailed row attemptNo (some httpStatus) telemetry.accepted
        telemetry.dedupHit "UNACCEPTED_RESPONSE"
        ("HTTP " ++ toString httpStatus ++ "，accepted=" ++
          (if telemetry.accepted then "true" else "false")))

/-- Instance statuses (src/types.ts, schema/init.sql). -/
inductive InstanceStatus where
  | active
  | pending_url
  | disabled
deriving Repr, DecidableEq

/-- One row of `instances` (schema/init.sql), restricted to the columns
`upsertInstance` and the sync handler read or write. -/
structure InstanceRow where
  instance_id : String
  site_id : String
  site_url : Option String
  status : InstanceStatus
  pending_reason : Option String
  site_pub_key : String
  site_key_alg : String
  minute_of_day : Nat
  next_run_at : Option String
  app_version : Option String
  build_id : Option String
  commit_hash : Option String
deriving Repr, DecidableEq

/-- The per-request inputs of `upsertInstance` (src/db-instance.ts), after
the sync handler normalised them. -/
structure UpsertArgs where
  siteId : String
  sitePubKey : String
  siteKeyAlg : String
  normalizedSiteUrl : Option String
  pendingReason : Option String
  appVersion : Option String
  buildId : Option String
  commitHash : Option String
deriving Repr, DecidableEq

/-- The nondeterministic inputs of one `upsertInstance` call:
`generateInstanceId()`, `randomMinuteOfDay()`, and `computeNextRunAt(m, new
Date())` as a function of the minute. -/
structure UpsertFresh where
  instanceId : String
  minuteOfDay : Nat
  nextRunOf : Nat → String

/-- `input.pendingReason ? "pending_url" : "active"`
(src/db-instance.ts). -/
def upsertStatus (pendingReason : Option String) : InstanceStatus :=
  if pendingReason.isSome then .pending_url else .active

/-- Embeds `upsertInstance` (src/db-instance.ts): on first sight, insert a
fresh row carrying the submitted key and a random minute; on an existing
row, update everything the sync carries except `instance_id`, `site_id`,
`site_pub_key` (kept from the existing row) and `minute_of_day` (kept from
the existing row). -/
def upsertInstance (existing : Option InstanceRow) (a : UpsertArgs)
    (fresh : UpsertFresh) : InstanceRow :=
  let status := upsertStatus a.pendingReason
  match existing with
  | none =>
    let minuteOfDay := fresh.minuteOfDay
    { instance_id := fresh.instanceId
      site_id := a.siteId
      site_url := a.normalizedSiteUrl
      status := status
      pending_reason := a.pendingReason
      site_pub_key := a.sitePubKey
      site_key_alg := a.siteKeyAlg
      minute_of_day := minuteOfDay
      next_run_at := if status = .active then some (fresh.nextRunOf minuteOfDay) else none
      app_version := a.appVersion
      build_id := a.buildId
      commit_hash := a.commitHash }
  | some e =>
    let minuteOfDay := e.minute_of_day
    { e with
      site_url := a.normalizedSiteUrl
      status := status
      pending_reason := a.pendingReason
      site_pub_key := e.site_pub_key
      site_key_alg := a.siteKeyAlg
      minute_of_day := minuteOfDay
      next_run_at := if status = .active then some (fresh.nextRunOf minuteOfDay) else none
      app_version := a.appVersion
      build_id := a.buildId
      commit_hash := a.commitHash }

/-- Embeds the sync handler's key selection (src/app.ts):
`existing ? existing.site_pub_key : input.sitePubKey` — the key the
signature of the request is verified against. -/
def syncVerifyKey (existing : Option InstanceRow) (submittedKey : String) : String :=
  match existing with
  | some e => e.site_pub_key
  | none => submittedKey

/-- One successful `/v1/instances/sync` after the first, acting on the row
stored for the site: the handler loads the existing row and upserts. -/
def syncAgain (row : InstanceRow) (a : UpsertArgs) (fresh : UpsertFresh) : InstanceRow :=
  upsertInstance (some row) a fresh

/-- A sequence of successful later syncs for the same `siteId`. -/
def runSyncs (row : InstanceRow) : List (UpsertArgs × UpsertFresh) → InstanceRow
  | [] => row
  | (a, fresh) :: rest => runSyncs (syncAgain row a fresh) rest

/-- Helper: the delivery invariant is preserved by every operation the
pipeline issues. -/
theorem deliveryInvariant_apply (row : DeliveryRow) (op : DeliveryOp)
    (hrow : deliveryInvariant row) (hop : invokedByPipeline op) :
    deliveryInvariant (applyDeliveryOp row op) := by
  cases op with
  | delivered attemptCount responseStatus accepted dedupHit now =>
    simp only [invokedByPipeline] at hop
    subst hop
    constructor
    · intro _
      exact ⟨by simp [applyDeliveryOp, markDeliveryDelivered], by
        simp [applyDeliveryOp, markDeliveryDelivered, toSqlBool]⟩
    · intro hdead
      simp [applyDeliveryOp, markDeliveryDelivered] at hdead
  | failed attemptCount responseStatus accepted dedupHit errorCode errorMessage =>
    constructor
    · intro hdel
      simp [applyDeliveryOp, markDeliveryFailed] at hdel
    · intro hdead
      simp [applyDeliveryOp, markDeliveryFailed] at hdead
  | dead errorCode errorMessage now =>
    constructor
    · intro hdel
      simp [applyDeliveryOp, markDeliveryDead] at hdel
    · intro _
      simp [applyDeliveryOp, markDeliveryDead]

/-- Helper: the delivery invariant is preserved by any pipeline-issued
sequence. -/
theorem deliveryInvariant_runOps (ops : List DeliveryOp) :
    ∀ row : DeliveryRow, deliveryInvariant row →
      (∀ op ∈ ops, invokedByPipeline op) →
      deliveryInvariant (runDeliveryOps row ops) := by
  induction ops with
  | nil => intro row hrow _; exact hrow
  | cons op rest ih =>
    intro row hrow hops
    exact ih (applyDeliveryOp row op)
      (deliveryInvariant_apply row op hrow (hops op (by simp)))
      (fun o ho => hops o (by simp [ho]))

/-- C8: after any sequence of pipeline-issued delivery operations starting
from `createDelivery`, every delivery row satisfies: `delivered` implies
`completed_at ≠ null` and `accepted = 1`, and `dead` implies
`completed_at ≠ null`; moreover `markDeliveryFailed` leaves `completed_at`
untouched. -/
theorem delivery_status_invariant (ops : List DeliveryOp)
    (hops : ∀ op ∈ ops, invokedByPipeline op) :
    deliveryInvariant (runDeliveryOps createDelivery ops) ∧
    (∀ (row : DeliveryRow) attemptCount responseStatus accepted dedupHit
        errorCode errorMessage,
      (markDeliveryFailed row attemptCount responseStatus accepted dedupHit
        errorCode errorMessage).completed_at = row.completed_at) := by
  constructor
  · refine deliveryInvariant_runOps ops createDelivery ?_ hops
    constructor
    · intro h; simp [createDelivery] at h
    · intro h; simp [createDelivery] at h
  · intro row _ _ _ _ _ _
    rfl

/-- C8 witness: a failed-then-dead history for a concrete delivery. -/
theorem delivery_status_invariant_witness :
    deliveryInvariant (runDeliveryOps createDelivery
      [.failed 1 (some 500) false false "REQUEST_FAILED" "boom",
       .dead "MAX_ATTEMPTS_EXCEEDED" "done" "2026-01-01T00:00:00.000Z",
       .delivered 2 (some 200) true false "2026-01-01T00:05:00.000Z"]) :=
  (delivery_status_invariant
    [.failed 1 (some 500) false false "REQUEST_FAILED" "boom",
     .dead "MAX_ATTEMPTS_EXCEEDED" "done" "2026-01-01T00:00:00.000Z",
     .delivered 2 (some 200) true false "2026-01-01T00:05:00.000Z"]
    (by intro op hop; fin_cases hop <;> simp [invokedByPipeline])).1

/-- C10: `parsePositiveInt` returns the fallback for absent, non-numeric,
and non-positive configuration strings, and with a positive default the
result is always positive — in particular `MAX_RETRY_ATTEMPTS="0"` yields
the default 6. -/
theorem parsePositiveInt_fallback_positive :
    (∀ fallback : Int, parsePositiveInt none fallback = fallback) ∧
    (∀ (s : String) (fallback : Int), jsParseInt s = none →
      parsePositiveInt (some s) fallback = fallback) ∧
    (∀ (s : String) (v fallback : Int), jsParseInt s = some v → v ≤ 0 →
      parsePositiveInt (some s) fallback = fallback) ∧
    (∀ (raw : Option String) (fallback : Int), 0 < fallback →
      0 < parsePositiveInt raw fallback) ∧
    parsePositiveInt (some "0") 6 = 6 := by
  refine ⟨fun _ => rfl, ?_, ?_, ?_, by decide⟩
  · intro s fallback hparse
    unfold parsePositiveInt
    by_cases hs : s = "" <;> simp [hs, hparse]
  · intro s v fallback hparse hv
    unfold parsePositiveInt
    by_cases hs : s = ""
    · simp [hs]
    · simp only [hs, if_false, hparse]
      have : ¬ v > 0 := not_lt.mpr hv
      simp [this]
  · intro raw fallback hpos
    unfold parsePositiveInt
    match raw with
    | none => exact hpos
    | some s =>
      by_cases hs : s = ""
      · simpa [hs] using hpos
      · simp only [hs, if_false]
        match hparse : jsParseInt s with
        | none => exact hpos
        | some v =>
          by_cases hv : v > 0
          · simpa [hv] using hv
          · simpa [hv] using hpos

/-- C10 witness: `MAX_RETRY_ATTEMPTS="0"` falls back to 6, and a
non-numeric `REQUEST_TIMEOUT_MS` stays positive. -/
theorem parsePositiveInt_fallback_positive_witness :
    parsePositiveInt (some "0") 6 = 6 ∧
    parsePositiveInt (some "abc") 15000 = 15000 ∧
    0 < parsePositiveInt (some "-3") 4096 :=
  ⟨parsePositiveInt_fallback_positive.2.2.2.2,
   parsePositiveInt_fallback_positive.2.1 "abc" 15000 (by decide),
   parsePositiveInt_fallback_positive.2.2.2.1 (some "-3") 4096 (by decide)⟩

/-- C9: a response body that is not valid JSON parses to the empty record,
its telemetry defaults `accepted` and `dedupHit` to false, and the dispatch
outcome is a failed delivery with `UNACCEPTED_RESPONSE` and result `retry`
even for a 2xx status. -/
theorem invalid_body_unaccepted_retry (httpStatus : Nat)
    (h200 : 200 ≤ httpStatus) (h299 : httpStatus ≤ 299)
    (row : DeliveryRow) (attemptNo : Nat) (now : String) :
    parseTelemetryCore (safeJsonParse none) = { accepted := false, dedupHit := false } ∧
    (dispatchResponseOutcome row attemptNo httpStatus
      (parseTelemetryCore (safeJsonParse none)) now).1 = .retry ∧
    (dispatchResponseOutcome row attemptNo httpStatus
      (parseTelemetryCore (safeJsonParse none)) now).2.status = .failed ∧
    (dispatchResponseOutcome row attemptNo httpStatus
      (parseTelemetryCore (safeJsonParse none)) now).2.last_error_code =
      some "UNACCEPTED_RESPONSE" := by
  have htel : parseTelemetryCore (safeJsonParse none) =
      { accepted := false, dedupHit := false } := rfl
  refine ⟨htel, ?_, ?_, ?_⟩ <;>
    simp [dispatchResponseOutcome, htel, markDeliveryFailed]

/-- C9 witness: status 200. -/
theorem invalid_body_unaccepted_retry_witness :
    (dispatchResponseOutcome createDelivery 1 200
      (parseTelemetryCore (safeJsonParse none)) "2026-01-01T00:00:00.000Z").1 =
      .retry :=
  (invalid_body_unaccepted_retry 200 (by decide) (by decide) createDelivery 1
    "2026-01-01T00:00:00.000Z").2.1

/-- Helper: later syncs never change `site_pub_key` or `minute_of_day`. -/
theorem runSyncs_preserves (rest : List (UpsertArgs × UpsertFresh)) :
    ∀ row : InstanceRow,
      (runSyncs row rest).site_pub_key = row.site_pub_key ∧
      (runSyncs row rest).minute_of_day = row.minute_of_day := by
  induction rest with
  | nil => intro row; exact ⟨rfl, rfl⟩
  | cons head tail ih =>
    intro row
    obtain ⟨a, fresh⟩ := head
    have hstep : (syncAgain row a fresh).site_pub_key = row.site_pub_key ∧
        (syncAgain row a fresh).minute_of_day = row.minute_of_day := by
      simp [syncAgain, upsertInstance]
    have := ih (syncAgain row a fresh)
    exact ⟨by rw [runSyncs, this.1, hstep.1], by rw [runSyncs, this.2, hstep.2]⟩

/-- C5: the first sync pins `site_pub_key` to the submitted key and
`minute_of_day` to the randomly drawn minute; every later successful sync
leaves both unchanged, and the handler verifies later requests against the
stored key, not the submitted one. -/
theorem sync_pins_key_and_minute (a₀ : UpsertArgs) (f₀ : UpsertFresh)
    (rest : List (UpsertArgs × UpsertFresh)) :
    (upsertInstance none a₀ f₀).site_pub_key = a₀.sitePubKey ∧
    (upsertInstance none a₀ f₀).minute_of_day = f₀.minuteOfDay ∧
    (runSyncs (upsertInstance none a₀ f₀) rest).site_pub_key = a₀.sitePubKey ∧
    (runSyncs (upsertInstance none a₀ f₀) rest).minute_of_day = f₀.minuteOfDay ∧
    (∀ (row : InstanceRow) (submittedKey : String),
      syncVerifyKey (some row) submittedKey = row.site_pub_key) := by
  have hfirst : (upsertInstance none a₀ f₀).site_pub_key = a₀.sitePubKey ∧
      (upsertInstance none a₀ f₀).minute_of_day = f₀.minuteOfDay := by
    simp [upsertInstance]
  have hrun := runSyncs_preserves rest (upsertInstance none a₀ f₀)
  exact ⟨hfirst.1, hfirst.2, hrun.1.trans hfirst.1, hrun.2.trans hfirst.2,
    fun _ _ => rfl⟩

/-- C6: `evaluateSiteUrl` realises the spec's normalization table (relative
to the platform URL parser), and the instance status derived from the
result is `pending_url` exactly when the pending reason is non-null. -/
theorem evaluateSiteUrl_normalization_table (parseUrl : String → Option UrlParts) :
    (evaluateSiteUrl parseUrl none = (none, some "pending_url_missing")) ∧
    (∀ s, normalizeNullableString (some s) = none →
      evaluateSiteUrl parseUrl (some s) = (none, some "pending_url_missing")) ∧
    (∀ s raw, normalizeNullableString (some s) = some raw → parseUrl raw = none →
      evaluateSiteUrl parseUrl (some s) = (none, some "pending_url_invalid")) ∧
    (∀ s raw parsed, normalizeNullableString (some s) = some raw →
      parseUrl raw = some parsed →
      parsed.protocol ≠ "http:" → parsed.protocol ≠ "https:" →
      evaluateSiteUrl parseUrl (some s) = (none, some "pending_url_invalid_protocol")) ∧
    (∀ s raw parsed, normalizeNullableString (some s) = some raw →
      parseUrl raw = some parsed →
      (parsed.protocol = "http:" ∨ parsed.protocol = "https:") →
      toLowerString parsed.hostname = "example.com" →
      evaluateSiteUrl parseUrl (some s) = (none, some "pending_url_default_example")) ∧
    (∀ s raw parsed, normalizeNullableString (some s) = some raw →
      parseUrl raw = some parsed →
      (parsed.protocol = "http:" ∨ parsed.protocol = "https:") →
      toLowerString parsed.hostname ≠ "example.com" →
      (toLowerString parsed.hostname = "localhost" ∨
        toLowerString parsed.hostname = "127.0.0.1" ∨
        toLowerString parsed.hostname = "::1" ∨
        strEndsWith (toLowerString parsed.hostname) ".localhost" ∨
        strEndsWith (toLowerString parsed.hostname) ".local" ∨
        strStartsWith (toLowerString parsed.hostname) "127.") →
      evaluateSiteUrl parseUrl (some s) = (none, some "pending_url_localhost")) ∧
    (∀ s raw parsed, normalizeNullableString (some s) = some raw →
      parseUrl raw = some parsed →
      (parsed.protocol = "http:" ∨ parsed.protocol = "https:") →
      toLowerString parsed.hostname ≠ "example.com" →
      ¬ (toLowerString parsed.hostname = "localhost" ∨
        toLowerString parsed.hostname = "127.0.0.1" ∨
        toLowerString parsed.hostname = "::1" ∨
        strEndsWith (toLowerString parsed.hostname) ".localhost" ∨
        strEndsWith (toLowerString parsed.hostname) ".local" ∨
        strStartsWith (toLowerString parsed.hostname) "127.") →
      evaluateSiteUrl parseUrl (some s) =
        (some (parsed.protocol ++ "//" ++ parsed.host), none)) ∧
    (∀ pendingReason : Option String,
      (upsertStatus pendingReason = .pending_url ↔ pendingReason ≠ none) ∧
      (upsertStatus pendingReason = .active ↔ pendingReason = none)) := by
  have hproto : ∀ parsed : UrlParts,
      (parsed.protocol = "http:" ∨ parsed.protocol = "https:") →
      ¬ (parsed.protocol ≠ "http:" ∧ parsed.protocol ≠ "https:") := by
    rintro parsed (h | h) ⟨h₁, h₂⟩
    · exact h₁ h
    · exact h₂ h
  refine ⟨rfl, ?_, ?_, ?_, ?_, ?_, ?_, ?_⟩
  · intro s hnorm
    simp [evaluateSiteUrl, hnorm]
  · intro s raw hnorm hparse
    simp [evaluateSiteUrl, hnorm, hparse]
  · intro s raw parsed hnorm hparse h₁ h₂
    simp [evaluateSiteUrl, hnorm, hparse, h₁, h₂]
  · intro s raw parsed hnorm hparse hp hhost
    simp [evaluateSiteUrl, hnorm, hparse, hproto parsed hp, hhost]
  · intro s raw parsed hnorm hparse hp hne hloc
    simp only [evaluateSiteUrl, hnorm, hparse, if_neg (hproto parsed hp)]
    rw [if_neg hne, if_pos hloc]
  · intro s raw parsed hnorm hparse hp hne hloc
    simp only [evaluateSiteUrl, hnorm, hparse, if_neg (hproto parsed hp)]
    rw [if_neg hne, if_neg hloc]
  · intro pendingReason
    cases pendingReason <;> simp [upsertStatus]

/-- C6 witness: a lower-cased `*.localhost` host is parked as
`pending_url_localhost`, and a regular origin passes through with status
`active`. -/
theorem evaluateSiteUrl_normalization_table_witness :
    evaluateSiteUrl
      (fun _ => some { protocol := "https:", hostname := "Sub.LocalHost",
                       host := "sub.localhost:8443" })
      (some " https://Sub.LocalHost:8443/x ") = (none, some "pending_url_localhost") ∧
    evaluateSiteUrl
      (fun _ => some { protocol := "https:", hostname := "Site.Test",
                       host := "site.test" })
      (some "https://site.test/blog") = (some "https://site.test", none) := by
  constructor
  · exact (evaluateSiteUrl_normalization_table
      (fun _ => some { protocol := "https:", hostname := "Sub.LocalHost",
                       host := "sub.localhost:8443" })).2.2.2.2.2.1
      " https://Sub.LocalHost:8443/x " "https://Sub.LocalHost:8443/x"
      { protocol := "https:", hostname := "Sub.LocalHost", host := "sub.localhost:8443" }
      (by decide) rfl (Or.inr rfl) (by decide) (by decide)
  · exact (evaluateSiteUrl_normalization_table
      (fun _ => some { protocol := "https:", hostname := "Site.Test",
                       host := "site.test" })).2.2.2.2.2.2.1
      "https://site.test/blog" "https://site.test/blog"
      { protocol := "https:", hostname := "Site.Test", host := "site.test" }
      (by decide) rfl (Or.inr rfl) (by decide) (by decide)

/-- C3 (code bug): `dispatchMessageSchema` (src/schemas.ts) accepts a queue
payload that has no `dispatchAttempt` at all, and a payload carrying
`dispatchAttempt: 0` parses to the very same six-field record — the field is
neither required, nor validated against `≥ 1`, nor propagated (zod strips
unknown keys), although `DispatchMessage` (src/types.ts) declares it
required and `handleQueue` (src/worker-handlers.ts) reads
`parsed.data.dispatchAttempt` as the attempt number. -/
theorem dispatchMessageSchema_drops_dispatchAttempt :
    dispatchMessageSchemaParse (.obj
      [("deliveryId", .str "dlv_1"), ("instanceId", .str "ins_1"),
       ("siteId", .str "123e4567-e89b-12d3-a456-426614174000"),
       ("siteUrl", .str "https://site.test"),
       ("scheduledFor", .str "2026-02-03T04:05:00.000Z"),
       ("enqueuedAt", .str "2026-02-03T04:00:00.000Z")]) =
      some { deliveryId := "dlv_1", instanceId := "ins_1",
             siteId := "123e4567-e89b-12d3-a456-426614174000",
             siteUrl := "https://site.test",
             scheduledFor := "2026-02-03T04:05:00.000Z",
             enqueuedAt := "2026-02-03T04:00:00.000Z" } ∧
    dispatchMessageSchemaParse (.obj
      [("deliveryId", .str "dlv_1"), ("instanceId", .str "ins_1"),
       ("siteId", .str "123e4567-e89b-12d3-a456-426614174000"),
       ("siteUrl", .str "https://site.test"),
       ("scheduledFor", .str "2026-02-03T04:05:00.000Z"),
       ("enqueuedAt", .str "2026-02-03T04:00:00.000Z"),
       ("dispatchAttempt", .num 0)]) =
      dispatchMessageSchemaParse (.obj
        [("deliveryId", .str "dlv_1"), ("instanceId", .str "ins_1"),
         ("siteId", .str "123e4567-e89b-12d3-a456-426614174000"),
         ("siteUrl", .str "https://site.test"),
         ("scheduledFor", .str "2026-02-03T04:05:00.000Z"),
         ("enqueuedAt", .str "2026-02-03T04:00:00.000Z")]) := by
  exact ⟨by decide, by decide⟩

/-- Helper: the upsert on an absent minute inserts `(sInc, rInc, 1)`. -/
theorem tryMinute_absent (sInc rInc maxPerMinute : Nat) (T : LoadTable) (m : Nat)
    (h : T m = none) :
    (tryMinute sInc rInc maxPerMinute T m).1 =
      some { scheduled_count := sInc, retry_count := rInc, total_count := 1 } ∧
    (tryMinute sInc rInc maxPerMinute T m).2 m =
      some { scheduled_count := sInc, retry_count := rInc, total_count := 1 } ∧
    (∀ m' ≠ m, (tryMinute sInc rInc maxPerMinute T m).2 m' = T m') := by
  refine ⟨?_, ?_, ?_⟩ <;> simp [tryMinute, h]
  intro m' hm'
  simp [hm']

/-- Helper: the upsert on a present minute below quota increments by the
deltas. -/
theorem tryMinute_update (sInc rInc maxPerMinute : Nat) (T : LoadTable) (m : Nat)
    (l : MinuteLoad) (h : T m = some l) (hlt : l.total_count < maxPerMinute) :
    (tryMinute sInc rInc maxPerMinute T m).1 =
      some { scheduled_count := l.scheduled_count + sInc,
             retry_count := l.retry_count + rInc,
             total_count := l.total_count + 1 } ∧
    (tryMinute sInc rInc maxPerMinute T m).2 m =
      some { scheduled_count := l.scheduled_count + sInc,
             retry_count := l.retry_count + rInc,
             total_count := l.total_count + 1 } ∧
    (∀ m' ≠ m, (tryMinute sInc rInc maxPerMinute T m).2 m' = T m') := by
  refine ⟨?_, ?_, ?_⟩ <;> simp [tryMinute, h, hlt]
  intro m' hm'
  simp [hm']

/-- Helper: the upsert on a full minute leaves the table unchanged and
returns no row. -/
theorem tryMinute_full (sInc rInc maxPerMinute : Nat) (T : LoadTable) (m : Nat)
    (l : MinuteLoad) (h : T m = some l) (hge : ¬ l.total_count < maxPerMinute) :
    tryMinute sInc rInc maxPerMinute T m = (none, T) := by
  simp [tryMinute, h, hge]

/-- Helper: one upsert preserves the per-minute invariant whenever the two
deltas sum to one and the quota is at least one. -/
theorem tryMinute_preserves_invariant (sInc rInc maxPerMinute : Nat)
    (T : LoadTable) (m : Nat) (hsr : sInc + rInc = 1) (hmax : 1 ≤ maxPerMinute)
    (hinv : loadInvariant maxPerMinute T) :
    loadInvariant maxPerMinute (tryMinute sInc rInc maxPerMinute T m).2 := by
  intro minute row hrow
  by_cases hm : minute = m
  · subst hm
    match h : T minute with
    | none =>
      have := (tryMinute_absent sInc rInc maxPerMinute T minute h).2.1
      rw [this] at hrow
      cases hrow
      exact ⟨by simpa using hsr.symm, hmax⟩
    | some l =>
      by_cases hlt : l.total_count < maxPerMinute
      · have := (tryMinute_update sInc rInc maxPerMinute T minute l h hlt).2.1
        rw [this] at hrow
        cases hrow
        have hl := hinv minute l h
        refine ⟨?_, ?_⟩ <;> (dsimp only; omega)
      · rw [tryMinute_full sInc rInc maxPerMinute T minute l h hlt] at hrow
        exact hinv minute row hrow
  · match h : T m with
    | none =>
      rw [(tryMinute_absent sInc rInc maxPerMinute T m h).2.2 minute hm] at hrow
      exact hinv minute row hrow
    | some l =>
      by_cases hlt : l.total_count < maxPerMinute
      · rw [(tryMinute_update sInc rInc maxPerMinute T m l h hlt).2.2 minute hm] at hrow
        exact hinv minute row hrow
      · rw [tryMinute_full sInc rInc maxPerMinute T m l h hlt] at hrow
        exact hinv minute row hrow

/-- Helper: the lookahead walk preserves the invariant. -/
theorem reserveWalk_preserves_invariant (sInc rInc maxPerMinute : Nat)
    (hsr : sInc + rInc = 1) (hmax : 1 ≤ maxPerMinute) :
    ∀ (remaining minute offset : Nat) (T : LoadTable),
      loadInvariant maxPerMinute T →
      loadInvariant maxPerMinute
        (reserveWalk sInc rInc maxPerMinute remaining minute offset T).2 := by
  intro remaining
  induction remaining with
  | zero => intro minute offset T hinv; exact hinv
  | succ rem ih =>
    intro minute offset T hinv
    have hstep := tryMinute_preserves_invariant sInc rInc maxPerMinute T minute hsr hmax hinv
    unfold reserveWalk
    match htry : tryMinute sInc rInc maxPerMinute T minute with
    | (some row, T') =>
      have hT' : loadInvariant maxPerMinute T' := by
        have hsnd : (tryMinute sInc rInc maxPerMinute T minute).2 = T' := by rw [htry]
        exact hsnd ▸ hstep
      simpa using hT'
    | (none, T') =>
      have hT' : loadInvariant maxPerMinute T' := by
        have hsnd : (tryMinute sInc rInc maxPerMinute T minute).2 = T' := by rw [htry]
        exact hsnd ▸ hstep
      simpa using ih (minute + 1) (offset + 1) T' hT'

/-- Helper: one `reserveDispatchSlot` call preserves the invariant. -/
theorem reserveDispatchSlot_preserves_invariant (T : LoadTable)
    (preferredAtMs : Nat) (source : DispatchSource)
    (maxPerMinute lookaheadMinutes : Nat) (hmax : 1 ≤ maxPerMinute)
    (hinv : loadInvariant maxPerMinute T) :
    loadInvariant maxPerMinute
      (reserveDispatchSlot T preferredAtMs source maxPerMinute lookaheadMinutes).2 := by
  unfold reserveDispatchSlot
  apply reserveWalk_preserves_invariant
  · cases source <;> rfl
  · exact hmax
  · exact hinv

/-- C1: starting from an empty `dispatch_minute_load` table, any sequence
of `reserveDispatchSlot` calls with a fixed quota of at least one keeps
every row at `total_count = scheduled_count + retry_count ≤ maxPerMinute`;
and each candidate minute is handled by the single upsert that inserts
`(scheduledInc, retryInc, 1)` when absent and increments only below the
quota. -/
theorem reserveDispatchSlot_load_invariant (maxPerMinute lookaheadMinutes : Nat)
    (hmax : 1 ≤ maxPerMinute) (calls : List ReserveCall) :
    loadInvariant maxPerMinute
      (runReservations maxPerMinute lookaheadMinutes emptyLoadTable calls) ∧
    (∀ (sInc rInc : Nat) (T : LoadTable) (m : Nat),
      (T m = none →
        (tryMinute sInc rInc maxPerMinute T m).1 =
          some { scheduled_count := sInc, retry_count := rInc, total_count := 1 }) ∧
      (∀ l, T m = some l → l.total_count < maxPerMinute →
        (tryMinute sInc rInc maxPerMinute T m).1 =
          some { scheduled_count := l.scheduled_count + sInc,
                 retry_count := l.retry_count + rInc,
                 total_count := l.total_count + 1 }) ∧
      (∀ l, T m = some l → ¬ l.total_count < maxPerMinute →
        tryMinute sInc rInc maxPerMinute T m = (none, T))) := by
  constructor
  · have hrun : ∀ (cs : List ReserveCall) (T : LoadTable),
        loadInvariant maxPerMinute T →
        loadInvariant maxPerMinute (runReservations maxPerMinute lookaheadMinutes T cs) := by
      intro cs
      induction cs with
      | nil => intro T hinv; exact hinv
      | cons c rest ih =>
        intro T hinv
        exact ih _ (reserveDispatchSlot_preserves_invariant T c.preferredAtMs c.source
          maxPerMinute lookaheadMinutes hmax hinv)
    exact hrun calls emptyLoadTable (fun minute row h => by simp [emptyLoadTable] at h)
  · intro sInc rInc T m
    exact ⟨fun h => (tryMinute_absent sInc rInc maxPerMinute T m h).1,
      fun l h hlt => (tryMinute_update sInc rInc maxPerMinute T m l h hlt).1,
      fun l h hge => tryMinute_full sInc rInc maxPerMinute T m l h hge⟩

/-- C1 witness: quota one, two reservations at the same preferred minute. -/
theorem reserveDispatchSlot_load_invariant_witness :
    loadInvariant 1 (runReservations 1 1 emptyLoadTable
      [{ preferredAtMs := 0, source := .scheduled },
       { preferredAtMs := 0, source := .retry }]) :=
  (reserveDispatchSlot_load_invariant 1 1 (by decide)
    [{ preferredAtMs := 0, source := .scheduled },
     { preferredAtMs := 0, source := .retry }]).1

/-- Helper: the upsert returns a row exactly when the capacity condition
holds, and a failing upsert leaves the table untouched. -/
theorem tryMinute_avail_iff (sInc rInc maxPerMinute : Nat) (T : LoadTable) (m : Nat) :
    ((tryMinute sInc rInc maxPerMinute T m).1.isSome ↔
      slotAvailable maxPerMinute T m) ∧
    (¬ slotAvailable maxPerMinute T m → tryMinute sInc rInc maxPerMinute T m = (none, T)) := by
  constructor
  · unfold slotAvailable
    match h : T m with
    | none =>
      simp [(tryMinute_absent sInc rInc maxPerMinute T m h).1]
    | some l =>
      by_cases hlt : l.total_count < maxPerMinute
      · simp [(tryMinute_update sInc rInc maxPerMinute T m l h hlt).1, hlt]
      · simp [tryMinute_full sInc rInc maxPerMinute T m l h hlt, hlt]
  · intro hna
    unfold slotAvailable at hna
    match h : T m with
    | none => simp [h] at hna
    | some l =>
      simp only [h] at hna
      exact tryMinute_full sInc rInc maxPerMinute T m l h hna

/-- Helper: an unavailable candidate minute makes the walk step to the next
minute with the table unchanged. -/
theorem reserveWalk_step_unavailable (sInc rInc maxPerMinute remaining minute offset : Nat)
    (T : LoadTable) (hna : ¬ slotAvailable maxPerMinute T minute) :
    reserveWalk sInc rInc maxPerMinute (remaining + 1) minute offset T =
      reserveWalk sInc rInc maxPerMinute remaining (minute + 1) (offset + 1) T := by
  have hfull := (tryMinute_avail_iff sInc rInc maxPerMinute T minute).2 hna
  conv_lhs => rw [reserveWalk]
  rw [hfull]

/-- Helper: an available candidate minute makes the walk return the upsert
result at that minute. -/
theorem reserveWalk_step_available (sInc rInc maxPerMinute remaining minute offset : Nat)
    (T : LoadTable) (ha : slotAvailable maxPerMinute T minute) :
    reserveWalk sInc rInc maxPerMinute (remaining + 1) minute offset T =
      ((tryMinute sInc rInc maxPerMinute T minute).1.map
        (fun row => { minute := minute, offsetMinutes := offset,
                      totalCount := row.total_count,
                      scheduledCount := row.scheduled_count,
                      retryCount := row.retry_count }),
       (tryMinute sInc rInc maxPerMinute T minute).2) := by
  have hsome : ((tryMinute sInc rInc maxPerMinute T minute).1).isSome :=
    (tryMinute_avail_iff sInc rInc maxPerMinute T minute).1.mpr ha
  unfold reserveWalk
  match htry : tryMinute sInc rInc maxPerMinute T minute with
  | (some row, T') => simp [htry]
  | (none, T') =>
    rw [htry] at hsome
    simp at hsome

/-- Helper: the walk lands on the first available offset. -/
theorem reserveWalk_first_available (sInc rInc maxPerMinute : Nat) :
    ∀ (k remaining minute offset : Nat) (T : LoadTable), k < remaining →
      (∀ o < k, ¬ slotAvailable maxPerMinute T (minute + o)) →
      slotAvailable maxPerMinute T (minute + k) →
      reserveWalk sInc rInc maxPerMinute remaining minute offset T =
        ((tryMinute sInc rInc maxPerMinute T (minute + k)).1.map
          (fun row => { minute := minute + k, offsetMinutes := offset + k,
                        totalCount := row.total_count,
                        scheduledCount := row.scheduled_count,
                        retryCount := row.retry_count }),
         (tryMinute sInc rInc maxPerMinute T (minute + k)).2) := by
  intro k
  induction k with
  | zero =>
    intro remaining minute offset T hk _ ha
    match remaining, hk with
    | rem + 1, _ =>
      simpa using reserveWalk_step_available sInc rInc maxPerMinute rem minute offset T
        (by simpa using ha)
  | succ k ih =>
    intro remaining minute offset T hk hfail ha
    match remaining, hk with
    | rem + 1, hk =>
      have h0 : ¬ slotAvailable maxPerMinute T minute := by
        have := hfail 0 (Nat.succ_pos k)
        simpa using this
      rw [reserveWalk_step_unavailable sInc rInc maxPerMinute rem minute offset T h0]
      have hfail' : ∀ o < k, ¬ slotAvailable maxPerMinute T (minute + 1 + o) := by
        intro o ho
        have := hfail (o + 1) (by omega)
        have harith : minute + (o + 1) = minute + 1 + o := by omega
        rwa [harith] at this
      have ha' : slotAvailable maxPerMinute T (minute + 1 + k) := by
        have harith : minute + (k + 1) = minute + 1 + k := by omega
        rwa [harith] at ha
      have := ih rem (minute + 1) (offset + 1) T (by omega) hfail' ha'
      rw [this]
      have h₁ : minute + 1 + k = minute + (k + 1) := by omega
      have h₂ : offset + 1 + k = offset + (k + 1) := by omega
      rw [h₁, h₂]
  termination_by k => k

/-- Helper: a fully-loaded window makes the walk return nothing with the
table unchanged. -/
theorem reserveWalk_all_full (sInc rInc maxPerMinute : Nat) :
    ∀ (remaining minute offset : Nat) (T : LoadTable),
      (∀ o < remaining, ¬ slotAvailable maxPerMinute T (minute + o)) →
      reserveWalk sInc rInc maxPerMinute remaining minute offset T = (none, T) := by
  intro remaining
  induction remaining with
  | zero => intro minute offset T _; rfl
  | succ rem ih =>
    intro minute offset T hfail
    have h0 : ¬ slotAvailable maxPerMinute T minute := by
      have := hfail 0 (Nat.succ_pos rem)
      simpa using this
    rw [reserveWalk_step_unavailable sInc rInc maxPerMinute rem minute offset T h0]
    apply ih
    intro o ho
    have := hfail (o + 1) (by omega)
    have harith : minute + (o + 1) = minute + 1 + o := by omega
    rwa [harith] at this

/-- C4: `reserveDispatchSlot` returns the upsert result of the first minute
in the lookahead window whose capacity condition holds (post-increment
counters and the offset walked); a full preferred minute with quota `N`
spills the `(N+1)`-th reservation to offset 1; a fully-loaded window
returns nothing and leaves the table unchanged. -/
theorem reserveDispatchSlot_first_available (preferredAtMs : Nat)
    (source : DispatchSource) (maxPerMinute lookaheadMinutes : Nat) (T : LoadTable) :
    (∀ k, k ≤ lookaheadMinutes →
      (∀ o < k, ¬ slotAvailable maxPerMinute T (preferredAtMs / 60000 + o)) →
      slotAvailable maxPerMinute T (preferredAtMs / 60000 + k) →
      reserveDispatchSlot T preferredAtMs source maxPerMinute lookaheadMinutes =
        ((tryMinute (if source = .scheduled then 1 else 0)
            (if source = .retry then 1 else 0) maxPerMinute T
            (preferredAtMs / 60000 + k)).1.map
          (fun row => { minute := preferredAtMs / 60000 + k, offsetMinutes := k,
                        totalCount := row.total_count,
                        scheduledCount := row.scheduled_count,
                        retryCount := row.retry_count }),
         (tryMinute (if source = .scheduled then 1 else 0)
            (if source = .retry then 1 else 0) maxPerMinute T
            (preferredAtMs / 60000 + k)).2)) ∧
    ((∀ o ≤ lookaheadMinutes, ¬ slotAvailable maxPerMinute T (preferredAtMs / 60000 + o)) →
      reserveDispatchSlot T preferredAtMs source maxPerMinute lookaheadMinutes =
        (none, T)) ∧
    (∀ l, T (preferredAtMs / 60000) = some l → l.total_count = maxPerMinute →
      1 ≤ lookaheadMinutes →
      slotAvailable maxPerMinute T (preferredAtMs / 60000 + 1) →
      ∃ slot T',
        reserveDispatchSlot T preferredAtMs source maxPerMinute lookaheadMinutes =
          (some slot, T') ∧ slot.offsetMinutes = 1) := by
  refine ⟨?_, ?_, ?_⟩
  · intro k hk hfail ha
    unfold reserveDispatchSlot
    have := reserveWalk_first_available (if source = .scheduled then 1 else 0)
      (if source = .retry then 1 else 0) maxPerMinute k (lookaheadMinutes + 1)
      (preferredAtMs / 60000) 0 T (by omega) hfail ha
    simpa using this
  · intro hfail
    unfold reserveDispatchSlot
    apply reserveWalk_all_full
    intro o ho
    exact hfail o (by omega)
  · intro l hl hfullrow hlook ha
    have hfail : ∀ o < 1, ¬ slotAvailable maxPerMinute T (preferredAtMs / 60000 + o) := by
      intro o ho
      have ho0 : o = 0 := by omega
      subst ho0
      simp only [Nat.add_zero]
      unfold slotAvailable
      rw [hl]
      omega
    have hwalk := reserveWalk_first_available (if source = .scheduled then 1 else 0)
      (if source = .retry then 1 else 0) maxPerMinute 1 (lookaheadMinutes + 1)
      (preferredAtMs / 60000) 0 T (by omega) hfail ha
    have hsome := (tryMinute_avail_iff (if source = .scheduled then 1 else 0)
      (if source = .retry then 1 else 0) maxPerMinute T
      (preferredAtMs / 60000 + 1)).1.mpr ha
    unfold reserveDispatchSlot
    match htry : (tryMinute (if source = .scheduled then 1 else 0)
        (if source = .retry then 1 else 0) maxPerMinute T
        (preferredAtMs / 60000 + 1)).1 with
    | some row =>
      refine ⟨{ minute := preferredAtMs / 60000 + 1, offsetMinutes := 0 + 1,
                totalCount := row.total_count, scheduledCount := row.scheduled_count,
                retryCount := row.retry_count },
              (tryMinute (if source = .scheduled then 1 else 0)
                (if source = .retry then 1 else 0) maxPerMinute T
                (preferredAtMs / 60000 + 1)).2, ?_, rfl⟩
      simp only [hwalk, htry]
      rfl
    | none =>
      rw [htry] at hsome
      simp at hsome

/-- C4 witness: quota 1 with the preferred minute already full spills the
next reservation to offset 1. -/
theorem reserveDispatchSlot_first_available_witness :
    ∃ slot T',
      reserveDispatchSlot
        (fun m => if m = 0 then
          some { scheduled_count := 1, retry_count := 0, total_count := 1 } else none)
        30000 .scheduled 1 1 = (some slot, T') ∧ slot.offsetMinutes = 1 :=
  (reserveDispatchSlot_first_available 30000 .scheduled 1 1
    (fun m => if m = 0 then
      some { scheduled_count := 1, retry_count := 0, total_count := 1 } else none)).2.2
    { scheduled_count := 1, retry_count := 0, total_count := 1 }
    (by decide) rfl (by decide) (by simp [slotAvailable])

/-- C2: the queue consumer's main path never invokes the queue's native
`retry()`: every branch acknowledges the inbound message, and when
`dispatch` returns `retry` below the attempt ceiling and a retry slot is
reserved at `now + min(30 · 2^(attemptNo−1), 900)` seconds of backoff, the
consumer re-enqueues a shallow copy with `dispatchAttempt = attemptNo + 1`,
`enqueuedAt = now` and a delay derived from the reserved minute, then
acknowledges. -/
theorem consumerStep_explicit_retry (maxAttempts maxPerMinute lookaheadMinutes : Nat)
    (table : LoadTable) (nowMs : Nat) (nowIso : String) (message : DispatchMessage)
    (attemptNo : Nat) (result : QueueResult) (sendOk : Bool) :
    (ConsumerAction.nativeRetry ∉
      (consumerStep maxAttempts maxPerMinute lookaheadMinutes table nowMs nowIso
        message attemptNo result sendOk).1 ∧
     ConsumerAction.ack ∈
      (consumerStep maxAttempts maxPerMinute lookaheadMinutes table nowMs nowIso
        message attemptNo result sendOk).1) ∧
    (result = .retry → attemptNo < maxAttempts → sendOk = true →
      ∀ slot : ReservedSlot,
        (reserveDispatchSlot table (nowMs + computeRetryBackoffMs attemptNo) .retry
          maxPerMinute lookaheadMinutes).1 = some slot →
        consumerStep maxAttempts maxPerMinute lookaheadMinutes table nowMs nowIso
          message attemptNo result sendOk =
          ([.enqueue { message with dispatchAttempt := attemptNo + 1, enqueuedAt := nowIso }
              (computeDelaySeconds (slot.minute * 60000) nowMs), .ack],
            (reserveDispatchSlot table (nowMs + computeRetryBackoffMs attemptNo) .retry
              maxPerMinute lookaheadMinutes).2)) ∧
    (1 ≤ attemptNo →
      computeRetryBackoffMs attemptNo = min (30 * 2 ^ (attemptNo - 1)) 900 * 1000) := by
  refine ⟨?_, ?_, ?_⟩
  · unfold consumerStep
    match result with
    | .success => simp
    | .drop => simp
    | .retry =>
      by_cases hge : attemptNo ≥ maxAttempts
      · simp [hge]
      · simp only [hge, if_false]
        match hres : reserveDispatchSlot table (nowMs + computeRetryBackoffMs attemptNo)
            .retry maxPerMinute lookaheadMinutes with
        | (none, table') => simp
        | (some slot, table') =>
          cases sendOk <;> simp
  · intro hresult hlt hsend slot hslot
    subst hresult hsend
    unfold consumerStep
    simp only [not_le.mpr hlt, ge_iff_le, if_false]
    match hres : reserveDispatchSlot table (nowMs + computeRetryBackoffMs attemptNo)
        .retry maxPerMinute lookaheadMinutes with
    | (none, table') =>
      rw [hres] at hslot
      simp at hslot
    | (some slot', table') =>
      rw [hres] at hslot
      simp only [Option.some.injEq] at hslot
      subst hslot
      simp [hres]
  · intro h1
    unfold computeRetryBackoffMs
    have : max 1 attemptNo = attemptNo := Nat.max_eq_right h1
    rw [this]

/-- C2 witness: first retry of a concrete message against an empty table
reserves minute 0 (30 s backoff) and re-enqueues with attempt 2. -/
theorem consumerStep_explicit_retry_witness :
    consumerStep 6 1 2 emptyLoadTable 0 "2026-02-03T04:00:30.000Z"
      { deliveryId := "dlv_1", instanceId := "ins_1",
        siteId := "123e4567-e89b-12d3-a456-426614174000",
        siteUrl := "https://site.test", scheduledFor := "2026-02-03T04:00:00.000Z",
        enqueuedAt := "2026-02-03T04:00:00.000Z", dispatchAttempt := 1 }
      1 .retry true =
      ([.enqueue
          { deliveryId := "dlv_1", instanceId := "ins_1",
            siteId := "123e4567-e89b-12d3-a456-426614174000",
            siteUrl := "https://site.test", scheduledFor := "2026-02-03T04:00:00.000Z",
            enqueuedAt := "2026-02-03T04:00:30.000Z", dispatchAttempt := 2 }
          (computeDelaySeconds (0 * 60000) 0), .ack],
        (reserveDispatchSlot emptyLoadTable (0 + computeRetryBackoffMs 1) .retry 1 2).2) :=
  (consumerStep_explicit_retry 6 1 2 emptyLoadTable 0 "2026-02-03T04:00:30.000Z"
    { deliveryId := "dlv_1", instanceId := "ins_1",
      siteId := "123e4567-e89b-12d3-a456-426614174000",
      siteUrl := "https://site.test", scheduledFor := "2026-02-03T04:00:00.000Z",
      enqueuedAt := "2026-02-03T04:00:00.000Z", dispatchAttempt := 1 }
    1 .retry true).2.1 rfl (by decide) rfl
    { minute := 0, offsetMinutes := 0, totalCount := 1, scheduledCount := 0,
      retryCount := 1 }
    (by decide)

/-- Helper: induction over `Json` with hypotheses on all array items and
all object entry values. -/
theorem Json.inductionOn {P : Json → Prop}
    (hnull : P .null) (hbool : ∀ b, P (.bool b)) (hnum : ∀ n, P (.num n))
    (hstr : ∀ s, P (.str s))
    (harr : ∀ l, (∀ x ∈ l, P x) → P (.arr l))
    (hobj : ∀ l, (∀ p ∈ l, P p.2) → P (.obj l)) :
    ∀ v, P v
  | .null => hnull
  | .bool b => hbool b
  | .num n => hnum n
  | .str s => hstr s
  | .arr l => harr l (fun x hx =>
      Json.inductionOn hnull hbool hnum hstr harr hobj x)
  | .obj l => hobj l (fun p hp =>
      Json.inductionOn hnull hbool hnum hstr harr hobj p.2)
termination_by v => sizeOf v
decreasing_by
  · have := List.sizeOf_lt_of_mem hx
    simp only [Json.arr.sizeOf_spec]
    omega
  · have := List.sizeOf_lt_of_mem hp
    obtain ⟨k, v⟩ := p
    simp only [Json.obj.sizeOf_spec, Prod.mk.sizeOf_spec] at *
    omega

/-- Helper: `sortList` is `List.map (sortValue le)`. -/
theorem sortList_eq_map (le : String → String → Bool) (l : List Json) :
    sortList le l = l.map (sortValue le) := by
  induction l with
  | nil => rfl
  | cons x xs ih => rw [sortList, ih, List.map_cons]

/-- Helper: `sortEntries` maps `sortValue le` over entry values. -/
theorem sortEntries_eq_map (le : String → String → Bool) (l : List (String × Json)) :
    sortEntries le l = l.map (fun p => (p.1, sortValue le p.2)) := by
  induction l with
  | nil => rfl
  | cons p xs ih =>
    obtain ⟨k, v⟩ := p
    rw [sortEntries, ih, List.map_cons]

/-- Helper: unfolding `sortValue` on arrays in map form. -/
theorem sortValue_arr (le : String → String → Bool) (l : List Json) :
    sortValue le (.arr l) = .arr (l.map (sortValue le)) := by
  rw [sortValue, sortList_eq_map]

/-- Helper: unfolding `sortValue` on objects in map form. -/
theorem sortValue_obj (le : String → String → Bool) (l : List (String × Json)) :
    sortValue le (.obj l) =
      .obj ((l.map (fun p => (p.1, sortValue le p.2))).insertionSort (keyRel le)) := by
  rw [sortValue, sortEntries_eq_map]

/-- Helper: the entry-value map preserves keys, so it commutes with the
key-wise insertion sort. -/
theorem map_values_insertionSort (le : String → String → Bool)
    (l : List (String × Json)) :
    (l.insertionSort (keyRel le)).map (fun p => (p.1, sortValue le p.2)) =
      (l.map (fun p => (p.1, sortValue le p.2))).insertionSort (keyRel le) :=
  List.map_insertionSort (keyRel le) (keyRel le) _ l (fun a _ b _ => Iff.rfl)

/-- Helper: `sortValue` over a consistent comparator is idempotent. -/
theorem sortValue_idem (le : String → String → Bool)
    (htot : CmpTotal le) (htrans : CmpTrans le) :
    ∀ v, sortValue le (sortValue le v) = sortValue le v := by
  letI : IsTotal (String × Json) (keyRel le) := ⟨fun p q => htot p.1 q.1⟩
  letI : IsTrans (String × Json) (keyRel le) :=
    ⟨fun _ _ _ h₁ h₂ => htrans _ _ _ h₁ h₂⟩
  intro v
  induction v using Json.inductionOn with
  | hnull => rfl
  | hbool b => rfl
  | hnum n => rfl
  | hstr s => rfl
  | harr l ih =>
    rw [sortValue_arr, sortValue_arr, List.map_map]
    congr 1
    exact List.map_congr_left (fun x hx => ih x hx)
  | hobj l ih =>
    rw [sortValue_obj, sortValue_obj, ← map_values_insertionSort,
      (List.sorted_insertionSort (keyRel le) _).insertionSort_eq,
      map_values_insertionSort, List.map_map]
    congr 2
    apply List.map_congr_left
    intro p hp
    simp only [Function.comp_apply]
    rw [ih p hp]

/-- Helper: a comparator-sorted entry list passes the Boolean checker. -/
theorem entriesKeySorted_of_sorted (le : String → String → Bool) :
    ∀ {l : List (String × Json)}, List.Sorted (keyRel le) l →
      entriesKeySorted le l = true := by
  intro l
  induction l with
  | nil => intro _; rfl
  | cons p rest ih =>
    intro hs
    match rest, hs with
    | [], _ => rfl
    | q :: rest', hs =>
      rw [entriesKeySorted]
      have hpq : le p.1 q.1 = true := (List.sorted_cons.mp hs).1 q (by simp)
      have htail := ih (List.sorted_cons.mp hs).2
      simp [hpq, htail]

/-- Helper: the Boolean list checkers agree with pointwise membership. -/
theorem keysSortedList_iff (le : String → String → Bool) (l : List Json) :
    keysSortedList le l = true ↔ ∀ x ∈ l, keysSorted le x = true := by
  induction l with
  | nil => simp [keysSortedList]
  | cons x xs ih =>
    rw [keysSortedList]
    simp [ih, Bool.and_eq_true]

/-- Helper: entries checker in membership form. -/
theorem keysSortedEntries_iff (le : String → String → Bool)
    (l : List (String × Json)) :
    keysSortedEntries le l = true ↔ ∀ p ∈ l, keysSorted le p.2 = true := by
  induction l with
  | nil => simp [keysSortedEntries]
  | cons p xs ih =>
    obtain ⟨k, v⟩ := p
    rw [keysSortedEntries]
    simp [ih, Bool.and_eq_true]

/-- Helper: array well-formedness in membership form. -/
theorem wfList_iff (l : List Json) :
    wfList l = true ↔ ∀ x ∈ l, wfJson x = true := by
  induction l with
  | nil => simp [wfList]
  | cons x xs ih =>
    rw [wfList]
    simp [ih, Bool.and_eq_true]

/-- Helper: entry well-formedness in membership form. -/
theorem wfEntries_iff (l : List (String × Json)) :
    wfEntries l = true ↔ ∀ p ∈ l, wfJson p.2 = true := by
  induction l with
  | nil => simp [wfEntries]
  | cons p xs ih =>
    obtain ⟨k, v⟩ := p
    rw [wfEntries]
    simp [ih, Bool.and_eq_true]

/-- Helper: array untiedness in membership form. -/
theorem untiedList_iff (le : String → String → Bool) (l : List Json) :
    untiedList le l = true ↔ ∀ x ∈ l, untiedKeys le x = true := by
  induction l with
  | nil => simp [untiedList]
  | cons x xs ih =>
    rw [untiedList]
    simp [ih, Bool.and_eq_true]

/-- Helper: entry untiedness in membership form. -/
theorem untiedEntries_iff (le : String → String → Bool)
    (l : List (String × Json)) :
    untiedEntries le l = true ↔ ∀ p ∈ l, untiedKeys le p.2 = true := by
  induction l with
  | nil => simp [untiedEntries]
  | cons p xs ih =>
    obtain ⟨k, v⟩ := p
    rw [untiedEntries]
    simp [ih, Bool.and_eq_true]

/-- Helper: the list-level untied checker gives the symmetric membership
property. -/
theorem entriesUntied_spec (le : String → String → Bool) :
    ∀ (l : List (String × Json)), entriesUntied le l = true →
      ∀ p ∈ l, ∀ q ∈ l, p.1 ≠ q.1 →
        ¬ (le p.1 q.1 = true ∧ le q.1 p.1 = true) := by
  intro l
  induction l with
  | nil =>
    intro _ p hp
    simp at hp
  | cons a rest ih =>
    intro h p hp q hq hne
    rw [entriesUntied, Bool.and_eq_true, List.all_eq_true] at h
    have htail := ih h.2
    rcases List.mem_cons.mp hp with rfl | hp'
    · rcases List.mem_cons.mp hq with rfl | hq'
      · exact absurd rfl hne
      · have hpair := h.1 q hq'
        simp only [pairUntied, Bool.or_eq_true, decide_eq_true_eq] at hpair
        rcases hpair with h' | h'
        · exact absurd h' hne
        · intro hc
          rw [hc.1, hc.2] at h'
          simp at h'
    · rcases List.mem_cons.mp hq with rfl | hq'
      · have hpair := h.1 p hp'
        simp only [pairUntied, Bool.or_eq_true, decide_eq_true_eq] at hpair
        rcases hpair with h' | h'
        · exact absurd h'.symm hne
        · intro hc
          rw [hc.1, hc.2] at h'
          simp at h'
      · exact htail p hp' q hq' hne

/-- Helper: the canonical form of a consistent comparator has its keys
sorted at every level. -/
theorem keysSorted_sortValue (le : String → String → Bool)
    (htot : CmpTotal le) (htrans : CmpTrans le) :
    ∀ v, keysSorted le (sortValue le v) = true := by
  letI : IsTotal (String × Json) (keyRel le) := ⟨fun p q => htot p.1 q.1⟩
  letI : IsTrans (String × Json) (keyRel le) :=
    ⟨fun _ _ _ h₁ h₂ => htrans _ _ _ h₁ h₂⟩
  intro v
  induction v using Json.inductionOn with
  | hnull => rfl
  | hbool b => rfl
  | hnum n => rfl
  | hstr s => rfl
  | harr l ih =>
    rw [sortValue_arr, keysSorted]
    rw [keysSortedList_iff]
    intro x hx
    obtain ⟨y, hy, rfl⟩ := List.mem_map.mp hx
    exact ih y hy
  | hobj l ih =>
    rw [sortValue_obj, keysSorted]
    have h₁ : entriesKeySorted le
        ((l.map (fun p => (p.1, sortValue le p.2))).insertionSort (keyRel le)) = true :=
      entriesKeySorted_of_sorted le (List.sorted_insertionSort (keyRel le) _)
    have h₂ : keysSortedEntries le
        ((l.map (fun p => (p.1, sortValue le p.2))).insertionSort (keyRel le)) = true := by
      rw [keysSortedEntries_iff]
      intro p hp
      have hp' := (List.mem_insertionSort (keyRel le)).mp hp
      obtain ⟨q, hq, rfl⟩ := List.mem_map.mp hp'
      exact ih q hq
    simp [h₁, h₂]

/-- Helper: two comparator-sorted permutations of an entry list with
duplicate-free, untied keys are equal — the stable sort has no freedom
left. -/
theorem untied_sorted_perm_eq (le : String → String → Bool) :
    ∀ (l₁ l₂ : List (String × Json)), l₁.Perm l₂ →
      List.Sorted (keyRel le) l₁ → List.Sorted (keyRel le) l₂ →
      (l₁.map Prod.fst).Nodup →
      (∀ p ∈ l₁, ∀ q ∈ l₁, p.1 ≠ q.1 →
        ¬ (le p.1 q.1 = true ∧ le q.1 p.1 = true)) →
      l₁ = l₂ := by
  intro l₁
  induction l₁ with
  | nil =>
    intro l₂ hp _ _ _ _
    exact (hp.symm.eq_nil).symm
  | cons a t₁ ih =>
    intro l₂ hp hs₁ hs₂ hnd hut
    cases l₂ with
    | nil => exact absurd hp.eq_nil (List.cons_ne_nil a t₁)
    | cons b t₂ =>
      have hab : a = b := by
        by_contra hne
        have hbmem : b ∈ a :: t₁ := hp.mem_iff.mpr (List.mem_cons_self b t₂)
        have hamem : a ∈ b :: t₂ := hp.mem_iff.mp (List.mem_cons_self a t₁)
        have hb_t₁ : b ∈ t₁ := by
          rcases List.mem_cons.mp hbmem with h | h
          · exact absurd h.symm hne
          · exact h
        have ha_t₂ : a ∈ t₂ := by
          rcases List.mem_cons.mp hamem with h | h
          · exact absurd h hne
          · exact h
        have h₁ : le a.1 b.1 = true := List.rel_of_sorted_cons hs₁ b hb_t₁
        have h₂ : le b.1 a.1 = true := List.rel_of_sorted_cons hs₂ a ha_t₂
        by_cases hkey : a.1 = b.1
        · have hmem : a.1 ∈ t₁.map Prod.fst := List.mem_map.mpr ⟨b, hb_t₁, hkey.symm⟩
          have hnd' : a.1 ∉ t₁.map Prod.fst := by
            rw [List.map_cons, List.nodup_cons] at hnd
            exact hnd.1
          exact hnd' hmem
        · exact hut a (List.mem_cons_self a t₁) b (List.mem_cons_of_mem a hb_t₁)
            hkey ⟨h₁, h₂⟩
      subst hab
      have hp' := hp.cons_inv
      have hnd' : (t₁.map Prod.fst).Nodup := by
        rw [List.map_cons, List.nodup_cons] at hnd
        exact hnd.2
      have ht : t₁ = t₂ := ih t₂ hp' hs₁.of_cons hs₂.of_cons hnd'
        (fun p hp₀ q hq₀ hne =>
          hut p (List.mem_cons_of_mem a hp₀) q (List.mem_cons_of_mem a hq₀) hne)
      rw [ht]

/-- Helper: permuted entry lists with duplicate-free, untied keys have the
same insertion sort under a consistent comparator. -/
theorem insertionSort_perm_untied_eq (le : String → String → Bool)
    (htot : CmpTotal le) (htrans : CmpTrans le)
    {m₁ m₂ : List (String × Json)} (hperm : m₁.Perm m₂)
    (hnd : (m₁.map Prod.fst).Nodup)
    (hut : ∀ p ∈ m₁, ∀ q ∈ m₁, p.1 ≠ q.1 →
      ¬ (le p.1 q.1 = true ∧ le q.1 p.1 = true)) :
    m₁.insertionSort (keyRel le) = m₂.insertionSort (keyRel le) := by
  letI : IsTotal (String × Json) (keyRel le) := ⟨fun p q => htot p.1 q.1⟩
  letI : IsTrans (String × Json) (keyRel le) :=
    ⟨fun _ _ _ h₁ h₂ => htrans _ _ _ h₁ h₂⟩
  have hp₁ := List.perm_insertionSort (keyRel le) m₁
  have hp₂ := List.perm_insertionSort (keyRel le) m₂
  have hchain : (m₁.insertionSort (keyRel le)).Perm (m₂.insertionSort (keyRel le)) :=
    (hp₁.trans hperm).trans hp₂.symm
  have hnd₁ : ((m₁.insertionSort (keyRel le)).map Prod.fst).Nodup :=
    ((hp₁.map Prod.fst).nodup_iff).mpr hnd
  exact untied_sorted_perm_eq le _ _ hchain
    (List.sorted_insertionSort (keyRel le) m₁)
    (List.sorted_insertionSort (keyRel le) m₂) hnd₁
    (fun p hp q hq =>
      hut p ((List.mem_insertionSort (keyRel le)).mp hp)
        q ((List.mem_insertionSort (keyRel le)).mp hq))

/-- Helper: permuting the entries of one well-formed object with untied
keys anywhere inside a value does not change its canonical form. -/
theorem sortValue_permStep (le : String → String → Bool)
    (htot : CmpTotal le) (htrans : CmpTrans le) :
    ∀ {x y : Json}, PermStep x y → wfJson x = true → untiedKeys le x = true →
      sortValue le x = sortValue le y := by
  intro x y hstep
  induction hstep with
  | objPerm hperm =>
    rename_i l₁ l₂
    intro hwf hut
    rw [wfJson, Bool.and_eq_true] at hwf
    rw [untiedKeys, Bool.and_eq_true] at hut
    have hnd : (l₁.map Prod.fst).Nodup := by
      have := hwf.1
      simpa using this
    have hutl := entriesUntied_spec le l₁ hut.1
    rw [sortValue_obj, sortValue_obj]
    congr 1
    apply insertionSort_perm_untied_eq le htot htrans (hperm.map _)
    · rw [List.map_map]
      have : (Prod.fst ∘ fun p : String × Json => (p.1, sortValue le p.2)) =
          Prod.fst := rfl
      rw [this]
      exact hnd
    · intro p hp q hq hne
      obtain ⟨p₀, hp₀, rfl⟩ := List.mem_map.mp hp
      obtain ⟨q₀, hq₀, rfl⟩ := List.mem_map.mp hq
      exact hutl p₀ hp₀ q₀ hq₀ hne
  | arrCongr pre post hxy ih =>
    rename_i x' y'
    intro hwf hut
    rw [wfJson, wfList_iff] at hwf
    rw [untiedKeys, untiedList_iff] at hut
    have hx' : wfJson x' = true := hwf x' (by simp)
    have hux' : untiedKeys le x' = true := hut x' (by simp)
    rw [sortValue_arr, sortValue_arr, List.map_append, List.map_append,
      List.map_cons, List.map_cons, ih hx' hux']
  | objCongr k pre post hxy ih =>
    rename_i x' y'
    intro hwf hut
    rw [wfJson, Bool.and_eq_true, wfEntries_iff] at hwf
    rw [untiedKeys, Bool.and_eq_true, untiedEntries_iff] at hut
    have hx' : wfJson x' = true := hwf.2 (k, x') (by simp)
    have hux' : untiedKeys le x' = true := hut.2 (k, x') (by simp)
    rw [sortValue_obj, sortValue_obj, List.map_append, List.map_append,
      List.map_cons, List.map_cons]
    simp only [ih hx' hux']

/-- Helper: on entry lists without array-index keys the platform's
enumeration order is the insertion order. -/
theorem jsPropertyOrder_plain (l : List (String × Json))
    (h : ∀ p ∈ l, isArrayIndexKey p.1 = false) :
    jsPropertyOrder l = l := by
  unfold jsPropertyOrder
  have h₁ : l.filter (fun p => isArrayIndexKey p.1) = [] := by
    rw [List.filter_eq_nil]
    intro p hp
    simp [h p hp]
  have h₂ : l.filter (fun p => ! isArrayIndexKey p.1) = l := by
    rw [List.filter_eq_self]
    intro p hp
    simp [h p hp]
  rw [h₁, h₂]
  rfl

/-- Helper: the codepoint order on character lists is total. -/
theorem charListLe_total : ∀ as bs, charListLe as bs = true ∨ charListLe bs as = true := by
  intro as
  induction as with
  | nil =>
    intro bs
    left
    simp [charListLe]
  | cons a as ih =>
    intro bs
    cases bs with
    | nil =>
      right
      simp [charListLe]
    | cons b bs' =>
      by_cases hab : a = b
      · subst hab
        rcases ih bs' with h | h
        · left
          simpa [charListLe] using h
        · right
          simpa [charListLe] using h
      · rcases lt_trichotomy a b with h | h | h
        · left
          simp [charListLe, hab, h]
        · exact absurd h hab
        · right
          simp [charListLe, Ne.symm hab, h]

/-- Helper: the codepoint order on character lists is transitive. -/
theorem charListLe_trans : ∀ as bs cs, charListLe as bs = true →
    charListLe bs cs = true → charListLe as cs = true := by
  intro as
  induction as with
  | nil =>
    intro bs cs _ _
    simp [charListLe]
  | cons a as ih =>
    intro bs cs h₁ h₂
    cases bs with
    | nil => simp [charListLe] at h₁
    | cons b bs' =>
      cases cs with
      | nil => simp [charListLe] at h₂
      | cons c cs' =>
        by_cases hab : a = b <;> by_cases hbc : b = c
        · subst hab
          subst hbc
          simp only [charListLe, if_pos rfl] at h₁ h₂ ⊢
          exact ih bs' cs' h₁ h₂
        · subst hab
          simp only [charListLe, if_neg hbc] at h₂
          have hac : a < c := of_decide_eq_true h₂
          simp [charListLe, ne_of_lt hac, hac]
        · subst hbc
          simp only [charListLe, if_neg hab] at h₁
          have hac : a < b := of_decide_eq_true h₁
          simp [charListLe, hab, hac]
        · simp only [charListLe, if_neg hab] at h₁
          simp only [charListLe, if_neg hbc] at h₂
          have hac : a < c := lt_trans (of_decide_eq_true h₁) (of_decide_eq_true h₂)
          simp [charListLe, ne_of_lt hac, hac]

/-- C7 (amended): over the comparator the program hands to the sort
(`localeCompare`, a host builtin modelled as a parameter, like the URL
parser of `evaluateSiteUrl`), and on values free of array-index keys
(JavaScript enumerates those first, numerically — `jsPropertyOrder`): a
consistent (total, transitive) comparator makes canonicalisation
idempotent with the canonical bytes a fixed point, and sorts keys in
comparator order at every level; permuting the keys of an object inside
the value preserves the canonical bytes provided the comparator ties no
distinct keys of the value (the default-locale collation ties canonically
equivalent keys — see the counterexample); arrays always preserve element
order, and on array-index-free entry lists the platform's enumeration
order is the insertion order. -/
theorem canonicalStringify_canonical (le : String → String → Bool) (x y : Json) :
    (CmpTotal le → CmpTrans le → plainKeys x = true →
      (sortValue le (sortValue le x) = sortValue le x ∧
        canonicalStringify le (sortValue le x) = canonicalStringify le x) ∧
      (wfJson x = true → untiedKeys le x = true → PermStep x y →
        canonicalStringify le x = canonicalStringify le y) ∧
      keysSorted le (sortValue le x) = true) ∧
    (∀ l, sortValue le (.arr l) = .arr (l.map (sortValue le))) ∧
    (∀ l : List (String × Json), (∀ p ∈ l, isArrayIndexKey p.1 = false) →
      jsPropertyOrder l = l) := by
  refine ⟨?_, sortValue_arr le, jsPropertyOrder_plain⟩
  intro htot htrans _hplain
  refine ⟨⟨sortValue_idem le htot htrans x, ?_⟩, ?_,
    keysSorted_sortValue le htot htrans x⟩
  · unfold canonicalStringify
    rw [sortValue_idem le htot htrans x]
  · intro hwf hut hstep
    unfold canonicalStringify
    rw [sortValue_permStep le htot htrans hstep hwf hut]

/-- C7 counterexample: with the tie the default-locale `localeCompare` has
on the canonically equivalent keys `á` (U+00E1) and `a` + U+0301
(ECMA-402 / ICU collation), the stable sort keeps the insertion order of
the tied keys, so swapping the two keys of a well-formed, array-index-free
object changes the canonical bytes: permutation invariance as the claim
states it fails.  The comparator is total and transitive — a consistent
comparator — and the two keys are distinct yet ordered both ways. -/
theorem canonicalStringify_tied_keys_counterexample :
    String.mk [Char.ofNat 225] ≠ String.mk [Char.ofNat 97, Char.ofNat 769] ∧
    icuLe (String.mk [Char.ofNat 225]) (String.mk [Char.ofNat 97, Char.ofNat 769]) =
      true ∧
    icuLe (String.mk [Char.ofNat 97, Char.ofNat 769]) (String.mk [Char.ofNat 225]) =
      true ∧
    CmpTotal icuLe ∧ CmpTrans icuLe ∧
    wfJson (.obj [(String.mk [Char.ofNat 225], .num 1),
      (String.mk [Char.ofNat 97, Char.ofNat 769], .num 2)]) = true ∧
    plainKeys (.obj [(String.mk [Char.ofNat 225], .num 1),
      (String.mk [Char.ofNat 97, Char.ofNat 769], .num 2)]) = true ∧
    PermStep
      (.obj [(String.mk [Char.ofNat 225], .num 1),
        (String.mk [Char.ofNat 97, Char.ofNat 769], .num 2)])
      (.obj [(String.mk [Char.ofNat 97, Char.ofNat 769], .num 2),
        (String.mk [Char.ofNat 225], .num 1)]) ∧
    canonicalStringify icuLe
        (.obj [(String.mk [Char.ofNat 225], .num 1),
          (String.mk [Char.ofNat 97, Char.ofNat 769], .num 2)]) ≠
      canonicalStringify icuLe
        (.obj [(String.mk [Char.ofNat 97, Char.ofNat 769], .num 2),
          (String.mk [Char.ofNat 225], .num 1)]) := by
  have htie₁ : icuLe (String.mk [Char.ofNat 225])
      (String.mk [Char.ofNat 97, Char.ofNat 769]) = true := by decide
  have htie₂ : icuLe (String.mk [Char.ofNat 97, Char.ofNat 769])
      (String.mk [Char.ofNat 225]) = true := by decide
  refine ⟨by decide, htie₁, htie₂, ?_, ?_, ?_, ?_, ?_, ?_⟩
  · intro a b
    exact charListLe_total (nfcChars a.data) (nfcChars b.data)
  · intro a b c h₁ h₂
    exact charListLe_trans (nfcChars a.data) (nfcChars b.data) (nfcChars c.data) h₁ h₂
  · simp only [wfJson, wfEntries]
    decide
  · simp only [plainKeys, plainKeysEntries]
    decide
  · exact .objPerm (List.Perm.swap
      (String.mk [Char.ofNat 97, Char.ofNat 769], Json.num 2)
      (String.mk [Char.ofNat 225], Json.num 1) [])
  · have hx : sortValue icuLe
        (.obj [(String.mk [Char.ofNat 225], .num 1),
          (String.mk [Char.ofNat 97, Char.ofNat 769], .num 2)]) =
        .obj [(String.mk [Char.ofNat 225], .num 1),
          (String.mk [Char.ofNat 97, Char.ofNat 769], .num 2)] := by
      simp only [sortValue, sortEntries, List.insertionSort, List.orderedInsert]
      rw [if_pos (show keyRel icuLe (String.mk [Char.ofNat 225], Json.num 1)
        (String.mk [Char.ofNat 97, Char.ofNat 769], Json.num 2) from htie₁)]
    have hy : sortValue icuLe
        (.obj [(String.mk [Char.ofNat 97, Char.ofNat 769], .num 2),
          (String.mk [Char.ofNat 225], .num 1)]) =
        .obj [(String.mk [Char.ofNat 97, Char.ofNat 769], .num 2),
          (String.mk [Char.ofNat 225], .num 1)] := by
      simp only [sortValue, sortEntries, List.insertionSort, List.orderedInsert]
      rw [if_pos (show keyRel icuLe (String.mk [Char.ofNat 97, Char.ofNat 769], Json.num 2)
        (String.mk [Char.ofNat 225], Json.num 1) from htie₂)]
    unfold canonicalStringify
    rw [hx, hy]
    simp only [render, renderObj]
    decide

/-- C7 witness: the codepoint comparator (consistent and untied on the keys
used) on a concrete two-key object — swapping the keys leaves the
canonical bytes unchanged. -/
theorem canonicalStringify_canonical_witness :
    canonicalStringify codepointLe (.obj [("b", .num 1), ("a", .num 2)]) =
      canonicalStringify codepointLe (.obj [("a", .num 2), ("b", .num 1)]) := by
  have htot : CmpTotal codepointLe := fun a b => charListLe_total a.data b.data
  have htrans : CmpTrans codepointLe := fun a b c h₁ h₂ =>
    charListLe_trans a.data b.data c.data h₁ h₂
  have hwf : wfJson (.obj [("b", .num 1), ("a", .num 2)]) = true := by
    simp only [wfJson, wfEntries]
    decide
  have hut : untiedKeys codepointLe (.obj [("b", .num 1), ("a", .num 2)]) = true := by
    simp only [untiedKeys, untiedEntries]
    decide
  have hplain : plainKeys (.obj [("b", .num 1), ("a", .num 2)]) = true := by
    simp only [plainKeys, plainKeysEntries]
    decide
  exact ((canonicalStringify_canonical codepointLe
      (Json.obj [("b", Json.num 1), ("a", Json.num 2)])
      (Json.obj [("a", Json.num 2), ("b", Json.num 1)])).1 htot htrans hplain).2.1
    hwf hut (.objPerm (List.Perm.swap ("a", Json.num 2) ("b", Json.num 1) []))
